import Mathlib

/-!
Shallow embedding of `custom_components/fuelprices_dk/fuelprices_dk_api.py`
(the multi-source fuel-price scraping engine) and proofs about it.

Strings are modelled as `List Char`; Python `float` values as exact
rationals (plus infinities and NaN); Python exceptions as an explicit
error type threaded through `Except`.  A strategy returning `.error e`
models `refresh_prices()` raising exception `e`; claims that inspect the
resulting catalog condition on the `.ok` case.
-/

set_option autoImplicit false

namespace FuelDK

/-- Strings as character lists. -/
abbrev Str := List Char

/-- Whitespace as recognised by Python `str.strip` / `float` (ASCII part). -/
def isSpace (c : Char) : Bool :=
  c = ' ' || c = '\t' || c = '\n' || c = '\r' || c = '\x0b' || c = '\x0c'

/-- Worker for `pyReplace`: when the skip counter is positive the current
character belongs to an occurrence of `old` that was just replaced, so it
is dropped; at zero the next occurrence is looked for. -/
def pyReplaceGo (old new : Str) : Nat → Str → Str
  | _, [] => []
  | 0, c :: s =>
    if old ≠ [] ∧ old.isPrefixOf (c :: s) = true then
      new ++ pyReplaceGo old new (old.length - 1) s
    else
      c :: pyReplaceGo old new 0 s
  | k + 1, _ :: s => pyReplaceGo old new k s

/-- Python `str.replace(old, new)`: leftmost, non-overlapping occurrences of
`old` are replaced by `new`.  (The engine only ever calls it with a
non-empty `old`.) -/
def pyReplace (old new : Str) (s : Str) : Str :=
  pyReplaceGo old new 0 s

/-- Python `str.strip()`: drop whitespace from both ends. -/
def pyStrip (s : Str) : Str :=
  ((s.dropWhile isSpace).reverse.dropWhile isSpace).reverse

/-- Numeric value of a decimal digit character. -/
def digitVal (c : Char) : Nat := c.toNat - '0'.toNat

/-- Value of a most-significant-first digit string. -/
def digitsVal (s : Str) : Nat := s.foldl (fun a c => a * 10 + digitVal c) 0

/-- Characters allowed inside a Python numeric digit run (PEP 515). -/
def isDigitU (c : Char) : Bool := c.isDigit || c = '_'

/-- Validate a digit run with PEP-515 underscores (single `_` strictly
between digits) and return the digits with underscores removed. -/
def uDigits : Str → Option Str
  | [] => none
  | [c] => if c.isDigit then some [c] else none
  | c :: d :: rest =>
    if c.isDigit then
      if d = '_' then (uDigits rest).map (fun ds => c :: ds)
      else (uDigits (d :: rest)).map (fun ds => c :: ds)
    else none

/-- Result of Python `float()`: a finite value (modelled as an exact
rational), an infinity, or NaN. -/
inductive PyFloat where
  | fin (q : ℚ)
  | inf
  | ninf
  | nan
deriving DecidableEq, Repr

/-- Exponent suffix of a Python float literal: optional sign then digits. -/
def pyParseExp (s : Str) : Option Int :=
  match s with
  | '+' :: r => (uDigits (r.takeWhile isDigitU)).bind fun ds =>
      if r.dropWhile isDigitU = [] then some (digitsVal ds : Int) else none
  | '-' :: r => (uDigits (r.takeWhile isDigitU)).bind fun ds =>
      if r.dropWhile isDigitU = [] then some (-(digitsVal ds : Int)) else none
  | r => (uDigits (r.takeWhile isDigitU)).bind fun ds =>
      if r.dropWhile isDigitU = [] then some (digitsVal ds : Int) else none

/-- Numeric (non-inf/nan) part of the Python `float()` grammar:
`[digits] [. [digits]] [(e|E) exponent]`, at least one digit, PEP-515
underscores allowed inside digit runs. -/
def pyParseNum (s : Str) : Option ℚ :=
  let r1 := s.takeWhile isDigitU
  let s1 := s.dropWhile isDigitU
  let intPart : Option Str := if r1 = [] then some [] else uDigits r1
  match intPart with
  | none => none
  | some ids =>
    let fracAndRest : Option Str × Str :=
      match s1 with
      | '.' :: s1' =>
        (if s1'.takeWhile isDigitU = [] then some []
         else uDigits (s1'.takeWhile isDigitU), s1'.dropWhile isDigitU)
      | _ => (some [], s1)
    match fracAndRest.1 with
    | none => none
    | some fds =>
      if ids = [] ∧ fds = [] then none
      else
        let base : ℚ := (digitsVal ids : ℚ) + (digitsVal fds : ℚ) / (10 : ℚ) ^ fds.length
        match fracAndRest.2 with
        | [] => some base
        | e :: s3 =>
          if e = 'e' ∨ e = 'E' then
            (pyParseExp s3).map fun ex => base * (10 : ℚ) ^ ex
          else none

/-- Python `float(s)`: strip whitespace, optional sign, then either an
`inf`/`infinity`/`nan` word (case-insensitive) or a decimal literal.
`none` models `ValueError`. -/
def pyFloatParse (s : Str) : Option PyFloat :=
  match pyStrip s with
  | [] => none
  | c :: rest =>
    let signAndBody : Bool × Str :=
      if c = '+' then (false, rest)
      else if c = '-' then (true, rest)
      else (false, c :: rest)
    let low := signAndBody.2.map Char.toLower
    if low = "inf".toList ∨ low = "infinity".toList then
      some (if signAndBody.1 then .ninf else .inf)
    else if low = "nan".toList then some .nan
    else
      (pyParseNum signAndBody.2).map fun q =>
        .fin (if signAndBody.1 then -q else q)

/-- Round a rational to the nearest integer, ties to the even neighbour
(the rounding used by Python's fixed-point float formatting). -/
def roundHalfEven (q : ℚ) : Int :=
  let f := ⌊q⌋
  let d := q - (f : ℚ)
  if d < 1 / 2 then f
  else if 1 / 2 < d then f + 1
  else if f % 2 = 0 then f else f + 1

/-- Render `n < 100` with exactly two digits. -/
def natTwoDigits (n : Nat) : Str :=
  if n < 10 then '0' :: Nat.toDigits 10 n else Nat.toDigits 10 n

/-- Python `f"{q:.2f}"` for a finite value, on the exact-rational model. -/
def formatTwoQ (q : ℚ) : Str :=
  let m := (roundHalfEven (|q| * 100)).toNat
  (if q < 0 then ['-'] else []) ++ Nat.toDigits 10 (m / 100) ++ '.' :: natTwoDigits (m % 100)

/-- Python `f"{v:.2f}"` on the `PyFloat` model. -/
def pyFormatTwo : PyFloat → Str
  | .fin q => formatTwoQ q
  | .inf => "inf".toList
  | .ninf => "-inf".toList
  | .nan => "nan".toList

/-- The VAT label stripped by `FuelCompany._clean_price`. -/
def prisLabel : Str := "Pris inkl. moms: ".toList

/-- The currency suffix stripped by `FuelCompany._clean_price`. -/
def krLabel : Str := " kr.".toList

/-- The per-kWh currency suffix stripped by `FuelCompany._clean_price`. -/
def kwhLabel : Str := " kr/kWh".toList

/-- The intermediate string `_clean_price` hands to `float(...)`: label,
currency suffixes and comma separator normalised, whitespace stripped. -/
def priceResidue (s : Str) : Str :=
  pyStrip (pyReplace [','] ['.']
    (pyReplace kwhLabel [] (pyReplace krLabel [] (pyReplace prisLabel [] s))))

/-- `FuelCompany._clean_price`: strip decorations, parse as float, format
with two decimals.  `none` models the `ValueError` raised by `float`. -/
def clean_price (s : Str) : Option Str :=
  (pyFloatParse (priceResidue s)).map pyFormatTwo

/-- Python exceptions surfaced by the engine.  The first three are the
ones `FuelPrices.refresh` catches per company. -/
inductive PyExn where
  | readTimeout
  | connectTimeout
  | httpError
  | jsonDecodeError
  | valueError
  | indexError
  | keyError
deriving DecidableEq, Repr

/-- The label stripped by `FuelCompany._clean_product_name`. -/
def beskLabel : Str := "Beskrivelse: ".toList

/-- `FuelCompany._clean_product_name`: strip the label and whitespace,
then drop one trailing period.  `product_name[-1]` on an empty string
raises `IndexError`, modelled by `.error .indexError`. -/
def clean_product_name (s : Str) : Except PyExn Str :=
  let t := pyStrip (pyReplace beskLabel [] s)
  match t.getLast? with
  | none => .error .indexError
  | some c => .ok (if c = '.' then t.dropLast else t)

/-- One per-product record of a source's catalog.  Optional fields model
keys that may be absent from the Python product dict. -/
structure ProdRec where
  name : Str
  price : Option PyFloat := none
  lastUpdate : Option Nat := none
  epochDUE : Option Int := none
  payloadIndex : Option Nat := none
  productCode : Option Nat := none
  ptype : Option Str := none
  ocrCrop : Option (List Str) := none
deriving DecidableEq, Repr

/-- A source's product catalog: insertion-ordered mapping of product kind
to record, as a Python dict. -/
abbrev Catalog := List (Str × ProdRec)

/-- Dict lookup `self._products[k]` (first entry with the key). -/
def catLookup (k : Str) (cat : Catalog) : Option ProdRec :=
  (cat.find? (fun p => p.1 == k)).map (fun p => p.2)

/-- In-place mutation of the record at key `k`. -/
def catUpdate (cat : Catalog) (k : Str) (f : ProdRec → ProdRec) : Catalog :=
  cat.map (fun p => if p.1 == k then (p.1, f p.2) else p)

/-- `float(self._clean_price(s))`: the numeric value stored by
`_set_price`; `none` models the `ValueError` from either `float` call. -/
def priceOf (s : Str) : Option PyFloat :=
  (clean_price s).bind pyFloatParse

/-- `FuelCompany._set_price`: store the normalised price and the refresh
timestamp on the record at `product_key`. -/
def set_price (cat : Catalog) (k : Str) (raw : Str) (now : Nat) :
    Except PyExn Catalog :=
  match priceOf raw with
  | none => .error .valueError
  | some v =>
    match catLookup k cat with
    | none => .error .keyError
    | some _ =>
      .ok (catUpdate cat k (fun r => { r with price := some v, lastUpdate := some now }))

/-- The reverse display-name index `products_name_key_idx`. -/
abbrev NameIdx := List (Str × Str)

/-- Python dict insertion: overwrite in place or append. -/
def dictInsert (d : NameIdx) (k v : Str) : NameIdx :=
  if (d.find? (fun e => e.1 == k)).isSome then
    d.map (fun e => if e.1 == k then (e.1, v) else e)
  else
    d ++ [(k, v)]

/-- `{v['name']: k for k, v in self._products.items()}`. -/
def mkNameIdx (cat : Catalog) : NameIdx :=
  cat.foldl (fun acc p => dictInsert acc p.2.name p.1) []

/-- Lookup of a display name in the reverse index. -/
def idxLookup (idx : NameIdx) (n : Str) : Option Str :=
  (idx.find? (fun e => e.1 == n)).map (fun e => e.2)

/-- Loop body of `FuelCompany._get_data_from_table`, threading the
`found_price` first-match list and the catalog through the rows. -/
def tableGo (pc qc : Nat) (idx : NameIdx) (now : Nat) :
    List (List Str) → List Str → Catalog → Except PyExn Catalog
  | [], _, cat => .ok cat
  | cells :: rows, found, cat =>
    if cells = [] then tableGo pc qc idx now rows found cat
    else
      match cells[pc]? with
      | none => .error .indexError
      | some raw =>
        match clean_product_name raw with
        | .error e => .error e
        | .ok pname =>
          if pname ∈ found then tableGo pc qc idx now rows found cat
          else
            match idxLookup idx pname with
            | none => tableGo pc qc idx now rows found cat
            | some key =>
              match cells[qc]? with
              | none => .error .indexError
              | some praw =>
                match set_price cat key praw now with
                | .error e => .error e
                | .ok cat2 => tableGo pc qc idx now rows (pname :: found) cat2

/-- `FuelCompany._get_data_from_table` on an already-fetched table
(`rows` is the list of `td`-cell text lists of each `tr`). -/
def get_data_from_table (pc qc : Nat) (idx : NameIdx) (now : Nat)
    (rows : List (List Str)) (cat : Catalog) : Except PyExn Catalog :=
  tableGo pc qc idx now rows [] cat

/-- Row loop of `FuelCompanyOk.refresh_prices` (grid-role scan): columns
0 and 1, no `found_price` deduplication. -/
def okGo (idx : NameIdx) (now : Nat) :
    List (List Str) → Catalog → Except PyExn Catalog
  | [], cat => .ok cat
  | cells :: rows, cat =>
    if cells = [] then okGo idx now rows cat
    else
      match cells[0]? with
      | none => .error .indexError
      | some raw =>
        match clean_product_name raw with
        | .error e => .error e
        | .ok pname =>
          match idxLookup idx pname with
          | none => okGo idx now rows cat
          | some key =>
            match cells[1]? with
            | none => .error .indexError
            | some praw =>
              match set_price cat key praw now with
              | .error e => .error e
              | .ok cat2 => okGo idx now rows cat2

/-- One regex-extracted JSON record of the Uno-X price document. -/
structure UnoxRec where
  product : Str
  epoch : Int
  pumpPrice : Str
deriving DecidableEq, Repr

/-- Record loop of `FuelCompanyUnox.refresh_prices`: accept a record only
if the product kind has no accepted epoch yet or the stored epoch is at
most the record's; on acceptance set the price and store the epoch. -/
def unoxGo (idx : NameIdx) (now : Nat) :
    List UnoxRec → Catalog → Except PyExn Catalog
  | [], cat => .ok cat
  | r :: rs, cat =>
    match idxLookup idx r.product with
    | none => unoxGo idx now rs cat
    | some key =>
      match catLookup key cat with
      | none => .error .keyError
      | some prod =>
        let accept : Bool :=
          match prod.epochDUE with
          | none => true
          | some e => decide (e ≤ r.epoch)
        if accept then
          match set_price cat key r.pumpPrice now with
          | .error e => .error e
          | .ok cat2 =>
            unoxGo idx now rs (catUpdate cat2 key (fun p => { p with epochDUE := some r.epoch }))
        else unoxGo idx now rs cat

/-- Product loop of `FuelCompanyShell.refresh_prices`: each JSON product
is a (name, price_incl_vat) pair, matched directly against the index. -/
def shellGo (idx : NameIdx) (now : Nat) :
    List (Str × Str) → Catalog → Except PyExn Catalog
  | [], cat => .ok cat
  | p :: ps, cat =>
    match idxLookup idx p.1 with
    | none => shellGo idx now ps cat
    | some key =>
      match set_price cat key p.2 now with
      | .error e => .error e
      | .ok cat2 => shellGo idx now ps cat2

/-- `FuelCompanyShell.refresh_prices`: fetch (with possible transport
error), JSON-decode (`.ok none` models a body that fails to decode, whose
`JSONDecodeError` is logged and re-raised), then the product loop. -/
def shell_refresh (fetch : Except PyExn (Option (List (Str × Str))))
    (idx : NameIdx) (now : Nat) (cat : Catalog) : Except PyExn Catalog :=
  match fetch with
  | .error e => .error e
  | .ok none => .error .jsonDecodeError
  | .ok (some ps) => shellGo idx now ps cat

/-- First loop of `FuelCompanyF24.refresh_fuel_prices`: assign a
sequential payload `Index` to every record that has a `ProductCode`. -/
def f24AssignIndex (cat : Catalog) : Catalog :=
  (cat.foldl (fun (acc : Catalog × Nat) p =>
    if p.2.productCode.isSome then
      (acc.1 ++ [(p.1, { p.2 with payloadIndex := some acc.2 })], acc.2 + 1)
    else
      (acc.1 ++ [p], acc.2)) ([], 0)).1

/-- Second loop of `FuelCompanyF24.refresh_fuel_prices`: for every record
with a `ProductCode`, read the response product at that record's `Index`
and set the price from its `PriceInclVATInclTax` field (`resp` is the
index-ordered list of those raw price strings). -/
def f24FillGo (resp : List Str) (now : Nat) :
    List (Str × ProdRec) → Catalog → Except PyExn Catalog
  | [], cat => .ok cat
  | p :: rest, cat =>
    match p.2.productCode with
    | none => f24FillGo resp now rest cat
    | some _ =>
      match p.2.payloadIndex with
      | none => .error .keyError
      | some i =>
        match resp[i]? with
        | none => .error .indexError
        | some praw =>
          match set_price cat p.1 praw now with
          | .error e => .error e
          | .ok cat2 => f24FillGo resp now rest cat2

/-- `FuelCompanyF24.refresh_fuel_prices`: the payload loop mutates the
`Index` fields, then the POST happens (its failure propagates), then the
response loop fills prices.  The `.ok` case of the result reflects the
full catalog state after a successful call. -/
def f24_refresh_fuel (resp : Except PyExn (List Str)) (now : Nat)
    (cat : Catalog) : Except PyExn Catalog :=
  let cat1 := f24AssignIndex cat
  match resp with
  | .error e => .error e
  | .ok prods => f24FillGo prods now cat1 cat1

/-- Product-kind constant `DIESEL`. -/
def kDiesel : Str := "diesel".toList

/-- Product-kind constant `DIESEL_PLUS`. -/
def kDieselPlus : Str := "diesel+".toList

/-- Product-kind constant `CHARGE`. -/
def kCharge : Str := "lader".toList

/-- Product-kind constant `QUICKCHARGE`. -/
def kQuickCharge : Str := "lynlader".toList

/-- Product-kind constant `OCTANE_95`. -/
def kOctane95 : Str := "oktan 95".toList

/-- Product-kind constant `OCTANE_95_PLUS`. -/
def kOctane95Plus : Str := "oktan 95+".toList

/-- Product-kind constant `OCTANE_100`. -/
def kOctane100 : Str := "oktan 100".toList

/-- Built-in catalog of `FuelCompanyOk`. -/
def okProducts : Catalog :=
  [(kOctane95, { name := "Blyfri 95".toList }),
   (kOctane100, { name := "Oktan 100".toList }),
   (kDiesel, { name := "Diesel".toList })]

/-- Built-in catalog of `FuelCompanyShell`. -/
def shellProducts : Catalog :=
  [(kOctane95, { name := "Shell FuelSave 95 oktan".toList }),
   (kOctane100, { name := "Shell V-Power 100 oktan".toList }),
   (kDiesel, { name := "Shell FuelSave Diesel".toList }),
   (kDieselPlus, { name := "Shell V-Power Diesel".toList }),
   (kQuickCharge, { name := "El/kWh".toList, ptype := some "electricity".toList })]

/-- Built-in catalog of `FuelCompanyCirclek`. -/
def circlekProducts : Catalog :=
  [(kOctane95, { name := "miles95".toList }),
   (kOctane95Plus, { name := "miles+95".toList }),
   (kDiesel, { name := "miles Diesel".toList }),
   (kDieselPlus, { name := "miles+ Diesel".toList }),
   (kQuickCharge, { name := "El Lynlader".toList, ptype := some "electricity".toList })]

/-- Built-in catalog of `FuelCompanyF24`. -/
def f24Products : Catalog :=
  [(kOctane95, { name := "GoEasy 95 E10".toList, productCode := some 22253 }),
   (kOctane95Plus, { name := "GoEasy 95 Extra E5".toList, productCode := some 22603 }),
   (kDiesel, { name := "GoEasy Diesel".toList, productCode := some 24453 }),
   (kDieselPlus, { name := "GoEasy Diesel Extra".toList, productCode := some 24338 }),
   (kCharge, { name := "Hurtiglader".toList, ptype := some "electricity".toList })]

/-- Built-in catalog of `FuelCompanyQ8`. -/
def q8Products : Catalog :=
  [(kOctane95, { name := "GoEasy 95 E10".toList, productCode := some 22251 }),
   (kOctane95Plus, { name := "GoEasy 95 Extra E5".toList, productCode := some 22601 }),
   (kDiesel, { name := "GoEasy Diesel".toList, productCode := some 24451 }),
   (kDieselPlus, { name := "GoEasy Diesel Extra".toList, productCode := some 24337 }),
   (kCharge, { name := "Hurtiglader".toList, ptype := some "electricity".toList }),
   (kQuickCharge, { name := "Lynlader".toList, ptype := some "electricity".toList })]

/-- Built-in catalog of `FuelCompanyIngo`. -/
def ingoProducts : Catalog :=
  [(kOctane95, { name := "Benzin 95".toList }),
   (kOctane95Plus, { name := "UPGRADE 95".toList }),
   (kDiesel, { name := "Diesel".toList })]

/-- Built-in catalog of `FuelCompanyOil`. -/
def oilProducts : Catalog :=
  [(kOctane95, { name := "95 E10".toList }),
   (kOctane95Plus, { name := "PREMIUM 98".toList }),
   (kDiesel, { name := "Diesel".toList })]

/-- Built-in catalog of `FuelCompanyGoon`. -/
def goonProducts : Catalog :=
  [(kOctane95, { name := "Blyfri 95".toList,
                 ocrCrop := some ["58".toList, "232".toList, "134".toList, "46".toList] }),
   (kDiesel, { name := "Transportdiesel".toList,
               ocrCrop := some ["58".toList, "289".toList, "134".toList, "46".toList] })]

/-- Built-in catalog of `FuelCompanyUnox`. -/
def unoxProducts : Catalog :=
  [(kOctane95, { name := "Blyfri 95 E10".toList }),
   (kOctane95Plus, { name := "Blyfri 98 E5".toList }),
   (kOctane100, { name := "Blyfri 100 E5".toList }),
   (kDiesel, { name := "Diesel".toList })]

/-- The product filter of `FuelCompany.__init__`: `None` keeps the whole
built-in catalog; a list keeps only the kinds it contains (note an empty
list keeps nothing, because the source tests `is not None`). -/
def filterProducts (subs : Option (List Str)) (prods : Catalog) : Catalog :=
  match subs with
  | none => prods
  | some l => prods.filter (fun p => l.contains p.1)

/-- `FuelPrices.company_keys`, in declaration order. -/
def company_keys : List Str :=
  ["circlek", "f24", "goon", "ingo", "oil", "ok", "q8", "shell", "unox"].map String.toList

/-- `FuelCompany.factory` restricted to catalog construction: resolves a
company key to the matching subclass's built-in catalog, `none` for an
unknown key (which the factory logs and skips). -/
def factoryTemplate (k : Str) : Option Catalog :=
  if k = "circlek".toList then some circlekProducts
  else if k = "f24".toList then some f24Products
  else if k = "goon".toList then some goonProducts
  else if k = "ingo".toList then some ingoProducts
  else if k = "oil".toList then some oilProducts
  else if k = "ok".toList then some okProducts
  else if k = "q8".toList then some q8Products
  else if k = "shell".toList then some shellProducts
  else if k = "unox".toList then some unoxProducts
  else none

/-- `FuelPrices.load_companies`: an empty (falsy) company list means all
known keys; every resolved key is constructed with the product filter
applied by `FuelCompany.__init__`. -/
def load_companies (subsC : List Str) (subsP : Option (List Str)) :
    List (Str × Catalog) :=
  let keys := if subsC = [] then company_keys else subsC
  keys.filterMap (fun k => (factoryTemplate k).map (fun t => (k, filterProducts subsP t)))

/-- One constructed source as seen by the orchestrator: its name, its
mutable catalog, and its `refresh_prices` behaviour (with the fetched
documents of a refresh pass already baked in). -/
structure CompanyM where
  cname : Str
  cat : Catalog
  run : Catalog → Except PyExn Catalog

/-- The exceptions `FuelPrices.refresh` catches per company. -/
def caught : PyExn → Bool
  | .readTimeout => true
  | .connectTimeout => true
  | .httpError => true
  | _ => false

/-- Outcome of one `FuelPrices.refresh` pass: per-company states, warned
company names, how many companies had `refresh_prices` invoked (iteration
is in registry order, so this counts a prefix), and the exception that
escaped `refresh`, if any. -/
structure RefreshResult where
  companies : List CompanyM
  warnings : List Str
  attempted : Nat
  uncaught : Option PyExn

/-- `FuelPrices.refresh`: invoke each company's `refresh_prices` in
order; timeouts and HTTP errors are logged as warnings and iteration
continues; any other exception escapes the loop at once. -/
def refreshGo : List CompanyM → RefreshResult
  | [] => ⟨[], [], 0, none⟩
  | c :: cs =>
    match c.run c.cat with
    | .ok cat2 =>
      let r := refreshGo cs
      ⟨{ c with cat := cat2 } :: r.companies, r.warnings, r.attempted + 1, r.uncaught⟩
    | .error e =>
      if caught e then
        let r := refreshGo cs
        ⟨c :: r.companies, c.cname :: r.warnings, r.attempted + 1, r.uncaught⟩
      else
        ⟨c :: cs, [], 1, some e⟩

/-- A table-scanning company (Circle K, Ingo, OIL! shape): the fetch is
the first effectful step of `refresh_prices`, so a fetch failure leaves
the catalog untouched; the reverse index is the one computed at
construction time from the constructed catalog. -/
def mkTableCompany (nm : Str) (template : Catalog) (subs : Option (List Str))
    (fetch : Except PyExn (List (List Str))) (pc qc now : Nat) : CompanyM :=
  let cat0 := filterProducts subs template
  { cname := nm, cat := cat0,
    run := fun cat =>
      match fetch with
      | .error e => .error e
      | .ok rows => get_data_from_table pc qc (mkNameIdx cat0) now rows cat }

/-- The OK company with its grid-role scan. -/
def mkOkCompany (subs : Option (List Str))
    (fetch : Except PyExn (List (List Str))) (now : Nat) : CompanyM :=
  let cat0 := filterProducts subs okProducts
  { cname := "OK".toList, cat := cat0,
    run := fun cat =>
      match fetch with
      | .error e => .error e
      | .ok rows => okGo (mkNameIdx cat0) now rows cat }

/-- The Shell company with its direct-JSON strategy. -/
def mkShellCompany (subs : Option (List Str))
    (fetch : Except PyExn (Option (List (Str × Str)))) (now : Nat) : CompanyM :=
  let cat0 := filterProducts subs shellProducts
  { cname := "Shell".toList, cat := cat0,
    run := fun cat => shell_refresh fetch (mkNameIdx cat0) now cat }

/-- The Uno-X company with its recency-keyed regex-JSON strategy. -/
def mkUnoxCompany (subs : Option (List Str))
    (fetch : Except PyExn (List UnoxRec)) (now : Nat) : CompanyM :=
  let cat0 := filterProducts subs unoxProducts
  { cname := "Uno-X".toList, cat := cat0,
    run := fun cat =>
      match fetch with
      | .error e => .error e
      | .ok recs => unoxGo (mkNameIdx cat0) now recs cat }

/-- The construction-time view of a catalog: key order plus all fields a
`refresh_prices` implementation never writes (display name, API product
code, price classification tag, OCR crop rectangle). -/
def frameView (cat : Catalog) : List (Str × Str × Option Nat × Option Str × Option (List Str)) :=
  cat.map (fun p => (p.1, p.2.name, p.2.productCode, p.2.ptype, p.2.ocrCrop))

/-- Whether this company's `refresh_prices` would end in an exception the
orchestrator does not catch. -/
def runEscapes (c : CompanyM) : Bool :=
  match c.run c.cat with
  | .ok _ => false
  | .error e => !(caught e)

/-- Whether this company's `refresh_prices` would succeed. -/
def runSucceeds (c : CompanyM) : Bool :=
  match c.run c.cat with
  | .ok _ => true
  | .error _ => false

/-- The catalog a company ends the pass with when no exception escapes:
the updated one on success, the previous one on a caught failure. -/
def runResultCat (c : CompanyM) : Catalog :=
  match c.run c.cat with
  | .ok cat2 => cat2
  | .error _ => c.cat

theorem pyReplace_nil (old new : Str) : pyReplace old new [] = [] := rfl

theorem pyReplace_cons_neg (old new : Str) (c : Char) (s : Str)
    (h : old.isPrefixOf (c :: s) = false) :
    pyReplace old new (c :: s) = c :: pyReplace old new s := by
  show pyReplaceGo old new 0 (c :: s) = c :: pyReplaceGo old new 0 s
  rw [pyReplaceGo]
  simp [h]

theorem pyReplaceGo_skip (old new : Str) (a b : Str) :
    pyReplaceGo old new a.length (a ++ b) = pyReplaceGo old new 0 b := by
  induction a with
  | nil => rfl
  | cons c t ih =>
    simp only [List.length_cons, List.cons_append]
    exact ih

theorem pyReplace_hit (old new rest : Str) (h : old ≠ []) :
    pyReplace old new (old ++ rest) = new ++ pyReplace old new rest := by
  obtain ⟨o, os, rfl⟩ := List.exists_cons_of_ne_nil h
  have hpre : (o :: os).isPrefixOf (o :: (os ++ rest)) = true := by
    have h2 := List.isPrefixOf_iff_prefix.mpr (List.prefix_append (o :: os) rest)
    simp only [List.cons_append] at h2
    exact h2
  show pyReplaceGo (o :: os) new 0 (o :: (os ++ rest)) =
    new ++ pyReplaceGo (o :: os) new 0 rest
  rw [pyReplaceGo, if_pos ⟨by simp, hpre⟩]
  simp only [List.length_cons, Nat.add_sub_cancel]
  rw [pyReplaceGo_skip]

theorem pyReplace_append_no_hit (old new : Str) (a b : Str)
    (h : ∀ k, k < a.length → old.isPrefixOf (a.drop k ++ b) = false) :
    pyReplace old new (a ++ b) = a ++ pyReplace old new b := by
  induction a with
  | nil => simp
  | cons c a ih =>
    have h0 := h 0 (by simp)
    simp only [List.drop_zero, List.cons_append] at h0
    rw [List.cons_append, pyReplace_cons_neg _ _ _ _ h0]
    rw [ih (fun k hk => by
      have := h (k + 1) (by simp; omega)
      simpa using this)]
    simp

theorem head_of_isPrefixOf (o : Char) (os s : Str)
    (h : (o :: os).isPrefixOf s = true) : s.head? = some o := by
  obtain ⟨u, hu⟩ := List.isPrefixOf_iff_prefix.mp h
  rw [← hu]
  simp

theorem second_of_isPrefixOf (o1 o2 : Char) (os s : Str)
    (h : (o1 :: o2 :: os).isPrefixOf s = true) : s.tail.head? = some o2 := by
  obtain ⟨u, hu⟩ := List.isPrefixOf_iff_prefix.mp h
  rw [← hu]
  simp

theorem pyReplace_skip_of_head_notMem (o : Char) (os new : Str) (a b : Str)
    (ha : o ∉ a) :
    pyReplace (o :: os) new (a ++ b) = a ++ pyReplace (o :: os) new b := by
  apply pyReplace_append_no_hit
  intro k hk
  by_contra hfalse
  have htrue : (o :: os).isPrefixOf (a.drop k ++ b) = true := by
    cases hx : (o :: os).isPrefixOf (a.drop k ++ b) with
    | true => rfl
    | false => exact absurd hx hfalse
  have hh := head_of_isPrefixOf _ _ _ htrue
  rw [List.drop_eq_getElem_cons hk, List.cons_append] at hh
  simp only [List.head?_cons, Option.some.injEq] at hh
  exact ha (hh ▸ List.getElem_mem hk)

theorem pyReplace_skip_spacek (o1 o2 : Char) (os new : Str) (a b : Str)
    (ha : o2 ∉ a) (hb : b.head? ≠ some o2) :
    pyReplace (o1 :: o2 :: os) new (a ++ b) = a ++ pyReplace (o1 :: o2 :: os) new b := by
  apply pyReplace_append_no_hit
  intro k hk
  by_contra hfalse
  have htrue : (o1 :: o2 :: os).isPrefixOf (a.drop k ++ b) = true := by
    cases hx : (o1 :: o2 :: os).isPrefixOf (a.drop k ++ b) with
    | true => rfl
    | false => exact absurd hx hfalse
  have hh := second_of_isPrefixOf _ _ _ _ htrue
  rw [List.drop_eq_getElem_cons hk, List.cons_append, List.tail_cons] at hh
  by_cases hklt : k + 1 < a.length
  · rw [List.drop_eq_getElem_cons hklt, List.cons_append] at hh
    simp only [List.head?_cons, Option.some.injEq] at hh
    exact ha (hh ▸ List.getElem_mem hklt)
  · rw [List.drop_eq_nil_of_le (by omega)] at hh
    simp only [List.nil_append] at hh
    exact hb hh

theorem pyReplace_of_not_mem (old new s : Str) (c : Char)
    (hc : c ∈ old) (hs : c ∉ s) : pyReplace old new s = s := by
  induction s with
  | nil => exact pyReplace_nil old new
  | cons d t ih =>
    have hpre : old.isPrefixOf (d :: t) = false := by
      cases hx : old.isPrefixOf (d :: t) with
      | false => rfl
      | true =>
        exact absurd ((List.isPrefixOf_iff_prefix.mp hx).subset hc) hs
    rw [pyReplace_cons_neg _ _ _ _ hpre,
      ih (fun h => hs (List.mem_cons_of_mem _ h))]

theorem pyReplace_single (c0 c1 : Char) (s : Str) :
    pyReplace [c0] [c1] s = s.map (fun c => if c = c0 then c1 else c) := by
  induction s with
  | nil => exact pyReplace_nil [c0] [c1]
  | cons d t ih =>
    by_cases h : d = c0
    · subst h
      rw [show (d :: t) = [d] ++ t from rfl, pyReplace_hit _ _ _ (by simp)]
      simp [ih]
    · have hpre : [c0].isPrefixOf (d :: t) = false := by
        simp [List.isPrefixOf]
        exact fun hh => h hh.symm
      rw [pyReplace_cons_neg _ _ _ _ hpre]
      simp [h, ih]

theorem dropWhile_append_of_all (p : Char → Bool) (a b : Str)
    (h : ∀ c ∈ a, p c = true) :
    List.dropWhile p (a ++ b) = List.dropWhile p b := by
  induction a with
  | nil => simp
  | cons c t ih =>
    rw [List.cons_append, List.dropWhile_cons]
    simp only [h c (by simp), if_true]
    exact ih (fun x hx => h x (by simp [hx]))

theorem takeWhile_append_of_all (p : Char → Bool) (a b : Str)
    (h : ∀ c ∈ a, p c = true) :
    List.takeWhile p (a ++ b) = a ++ List.takeWhile p b := by
  induction a with
  | nil => simp
  | cons c t ih =>
    rw [List.cons_append, List.takeWhile_cons]
    simp only [h c (by simp), if_true]
    rw [ih (fun x hx => h x (by simp [hx]))]
    simp

theorem takeWhile_of_all (p : Char → Bool) (a : Str)
    (h : ∀ c ∈ a, p c = true) : List.takeWhile p a = a := by
  have := takeWhile_append_of_all p a [] h
  simpa using this

theorem dropWhile_of_all (p : Char → Bool) (a : Str)
    (h : ∀ c ∈ a, p c = true) : List.dropWhile p a = [] := by
  have := dropWhile_append_of_all p a [] h
  simpa using this

theorem mem_of_getLast?Eq (s : Str) (c : Char) (h : s.getLast? = some c) :
    c ∈ s := by
  induction s with
  | nil => simp at h
  | cons d t ih =>
    cases t with
    | nil => simp_all
    | cons e r =>
      rw [List.getLast?_cons_cons] at h
      exact List.mem_cons_of_mem _ (ih h)

theorem pyStrip_sandwich (w1 core w2 : Str)
    (h1 : ∀ c ∈ w1, isSpace c = true) (h2 : ∀ c ∈ w2, isSpace c = true)
    (hne : core ≠ [])
    (hh : ∀ c, core.head? = some c → isSpace c = false)
    (hl : ∀ c, core.getLast? = some c → isSpace c = false) :
    pyStrip (w1 ++ core ++ w2) = core := by
  obtain ⟨c, t, rfl⟩ := List.exists_cons_of_ne_nil hne
  have hc : isSpace c = false := hh c rfl
  unfold pyStrip
  rw [List.append_assoc, dropWhile_append_of_all _ _ _ h1, List.cons_append,
    List.dropWhile_cons]
  simp only [hc, Bool.false_eq_true, if_false]
  rw [← List.cons_append, List.reverse_append,
    dropWhile_append_of_all _ _ _ (fun x hx => h2 x (by simpa using hx))]
  have hrne : (c :: t).reverse ≠ [] := by simp
  obtain ⟨d, r, hr⟩ := List.exists_cons_of_ne_nil hrne
  have hd : isSpace d = false := by
    apply hl
    rw [← List.head?_reverse, hr]
    simp
  rw [hr, List.dropWhile_cons]
  simp only [hd, Bool.false_eq_true, if_false]
  rw [← hr, List.reverse_reverse]

theorem isSpace_false_of_isDigit (c : Char) (h : c.isDigit = true) :
    isSpace c = false := by
  cases hx : isSpace c with
  | false => rfl
  | true =>
    exfalso
    simp only [isSpace, Bool.or_eq_true, decide_eq_true_eq] at hx
    rcases hx with ((((h1 | h1) | h1) | h1) | h1) | h1 <;>
      (subst h1; revert h; decide)

theorem uDigits_of_digits (l : Str) (hne : l ≠ []) (h : ∀ c ∈ l, c.isDigit = true) :
    uDigits l = some l := by
  induction l with
  | nil => cases hne rfl
  | cons c t ih =>
    cases t with
    | nil => simp [uDigits, h c (by simp)]
    | cons d r =>
      have hc := h c (by simp)
      have hd := h d (by simp)
      have hdu : ¬ d = '_' := by
        intro hh
        subst hh
        revert hd
        decide
      rw [uDigits]
      simp only [hc, if_true, hdu, if_false]
      rw [ih (by simp) (fun x hx => h x (by simp [hx]))]
      rfl

theorem digitVal_lt_ten (c : Char) (h : c.isDigit = true) : digitVal c < 10 := by
  simp only [Char.isDigit, Bool.and_eq_true, decide_eq_true_eq] at h
  have h2 : c.val.toNat ≤ 57 := h.2
  have h3 : ('0' : Char).val.toNat = 48 := by decide
  simp only [digitVal, Char.toNat, h3]
  omega

theorem foldl_digits_lt (l : Str) (a : Nat)
    (h : ∀ c ∈ l, c.isDigit = true) :
    List.foldl (fun a c => a * 10 + digitVal c) a l < (a + 1) * 10 ^ l.length := by
  induction l generalizing a with
  | nil => simp
  | cons c t ih =>
    have hc := digitVal_lt_ten c (h c (by simp))
    have hstep := ih (a * 10 + digitVal c) (fun x hx => h x (by simp [hx]))
    calc List.foldl (fun a c => a * 10 + digitVal c) (a * 10 + digitVal c) t
        < (a * 10 + digitVal c + 1) * 10 ^ t.length := hstep
      _ ≤ ((a + 1) * 10) * 10 ^ t.length := by
          apply Nat.mul_le_mul_right
          omega
      _ = (a + 1) * 10 ^ (c :: t).length := by
          rw [List.length_cons, pow_succ]
          ring

theorem digitsVal_lt (l : Str) (h : ∀ c ∈ l, c.isDigit = true) :
    digitsVal l < 10 ^ l.length := by
  have := foldl_digits_lt l 0 h
  simpa [digitsVal] using this

theorem pyParseNum_digits (ip fp : Str)
    (hip : ip ≠ []) (hdip : ∀ c ∈ ip, c.isDigit = true)
    (hfp : fp ≠ []) (hdfp : ∀ c ∈ fp, c.isDigit = true) :
    pyParseNum (ip ++ '.' :: fp) =
      some ((digitsVal ip : ℚ) + (digitsVal fp : ℚ) / (10 : ℚ) ^ fp.length) := by
  have hdU : ∀ c ∈ ip, isDigitU c = true := fun c hc => by
    simp [isDigitU, hdip c hc]
  have hdUf : ∀ c ∈ fp, isDigitU c = true := fun c hc => by
    simp [isDigitU, hdfp c hc]
  have hdot : isDigitU '.' = false := by decide
  unfold pyParseNum
  rw [takeWhile_append_of_all _ _ _ hdU, dropWhile_append_of_all _ _ _ hdU]
  rw [List.takeWhile_cons, List.dropWhile_cons]
  simp only [hdot, Bool.false_eq_true, if_false, List.append_nil]
  simp only [hip, if_false, uDigits_of_digits ip hip hdip]
  rw [takeWhile_of_all _ _ hdUf, dropWhile_of_all _ _ hdUf]
  simp only [hfp, if_false, uDigits_of_digits fp hfp hdfp]
  simp [hip]

theorem pyStrip_of_clean (s : Str) (hne : s ≠ [])
    (hh : ∀ c, s.head? = some c → isSpace c = false)
    (hl : ∀ c, s.getLast? = some c → isSpace c = false) :
    pyStrip s = s := by
  have := pyStrip_sandwich [] s [] (by simp) (by simp) hne hh hl
  simpa using this

theorem pyFloatParse_digits (ip fp : Str)
    (hip : ip ≠ []) (hdip : ∀ c ∈ ip, c.isDigit = true)
    (hfp : fp ≠ []) (hdfp : ∀ c ∈ fp, c.isDigit = true) :
    pyFloatParse (ip ++ '.' :: fp) =
      some (.fin ((digitsVal ip : ℚ) + (digitsVal fp : ℚ) / (10 : ℚ) ^ fp.length)) := by
  obtain ⟨c, t, rfl⟩ := List.exists_cons_of_ne_nil hip
  have hc : c.isDigit = true := hdip c (by simp)
  have hstrip : pyStrip ((c :: t) ++ '.' :: fp) = (c :: t) ++ '.' :: fp := by
    apply pyStrip_of_clean _ (by simp)
    · intro d hd
      simp only [List.cons_append, List.head?_cons, Option.some.injEq] at hd
      exact hd ▸ isSpace_false_of_isDigit c hc
    · intro d hd
      rw [List.getLast?_append] at hd
      cases hy : fp.getLast? with
      | none => exact absurd (List.getLast?_eq_none_iff.mp hy) hfp
      | some y =>
        rw [show ('.' :: fp) = ['.'] ++ fp from rfl, List.getLast?_append, hy] at hd
        simp only [Option.or_some, Option.some.injEq] at hd
        subst hd
        exact isSpace_false_of_isDigit _ (hdfp y (mem_of_getLast?Eq fp y hy))
  have hplus : ¬ c = '+' := by
    intro h
    subst h
    revert hc
    decide
  have hminus : ¬ c = '-' := by
    intro h
    subst h
    revert hc
    decide
  have hdotlow : '.' ∈ ((c :: t) ++ '.' :: fp).map Char.toLower :=
    List.mem_map.mpr ⟨'.', by simp, by decide⟩
  have hinf : ¬ (((c :: t) ++ '.' :: fp).map Char.toLower = "inf".toList ∨
      ((c :: t) ++ '.' :: fp).map Char.toLower = "infinity".toList) := by
    rintro (h | h) <;> (rw [h] at hdotlow; revert hdotlow; decide)
  have hnan : ¬ ((c :: t) ++ '.' :: fp).map Char.toLower = "nan".toList := by
    intro h
    rw [h] at hdotlow
    revert hdotlow
    decide
  rw [pyFloatParse, hstrip]
  simp only [List.cons_append]
  simp only [hplus, if_false, hminus, if_false]
  simp only [← List.cons_append, hinf, if_false, hnan, if_false]
  rw [pyParseNum_digits _ _ (by simp) hdip hfp hdfp]
  simp

theorem roundHalfEven_intCast (n : ℤ) : roundHalfEven (n : ℚ) = n := by
  simp only [roundHalfEven, Int.floor_intCast, sub_self]
  norm_num

theorem formatTwoQ_decimal (ipn fpn len : Nat) (hlen : len ≤ 2) (hfp : fpn < 10 ^ len) :
    formatTwoQ ((ipn : ℚ) + (fpn : ℚ) / (10 : ℚ) ^ len) =
      Nat.toDigits 10 ipn ++ '.' :: natTwoDigits (fpn * 10 ^ (2 - len)) := by
  have hq0 : (0 : ℚ) ≤ (ipn : ℚ) + (fpn : ℚ) / (10 : ℚ) ^ len := by positivity
  have hN : |((ipn : ℚ) + (fpn : ℚ) / (10 : ℚ) ^ len)| * 100
      = (((ipn * 100 + fpn * 10 ^ (2 - len) : ℕ) : ℤ) : ℚ) := by
    rw [abs_of_nonneg hq0]
    interval_cases len <;> (push_cast; field_simp; ring)
  have hlt : fpn * 10 ^ (2 - len) < 100 := by
    have h1 : 10 ^ len * 10 ^ (2 - len) = 100 := by
      rw [← pow_add]
      have h2 : len + (2 - len) = 2 := by omega
      rw [h2]
      norm_num
    calc fpn * 10 ^ (2 - len) < 10 ^ len * 10 ^ (2 - len) :=
          (Nat.mul_lt_mul_right (by positivity)).mpr hfp
      _ = 100 := h1
  have hdiv : (ipn * 100 + fpn * 10 ^ (2 - len)) / 100 = ipn := by
    rw [Nat.add_comm, Nat.add_mul_div_right _ _ (by norm_num)]
    simp [Nat.div_eq_of_lt hlt]
  have hmod : (ipn * 100 + fpn * 10 ^ (2 - len)) % 100 = fpn * 10 ^ (2 - len) := by
    rw [Nat.add_comm, Nat.add_mul_mod_self_right]
    exact Nat.mod_eq_of_lt hlt
  have hneg : ¬ ((ipn : ℚ) + (fpn : ℚ) / (10 : ℚ) ^ len < 0) := not_lt.mpr hq0
  rw [formatTwoQ]
  simp only [hN, roundHalfEven_intCast, Int.toNat_natCast, hdiv, hmod, hneg, if_false]
  simp

theorem notMem_append (x : Char) (l1 l2 : Str) (h1 : x ∉ l1) (h2 : x ∉ l2) :
    x ∉ l1 ++ l2 := by
  intro h
  rcases List.mem_append.mp h with h | h
  exacts [h1 h, h2 h]

theorem priceResidue_decorated (w1 w2 pre suf ip fp : Str) (sep : Char)
    (hw1 : ∀ c ∈ w1, isSpace c = true) (hw2 : ∀ c ∈ w2, isSpace c = true)
    (hpre : pre = [] ∨ pre = prisLabel)
    (hsuf : suf = [] ∨ suf = krLabel ∨ suf = kwhLabel)
    (hip : ip ≠ []) (hdip : ∀ c ∈ ip, c.isDigit = true)
    (hfp : fp ≠ []) (hdfp : ∀ c ∈ fp, c.isDigit = true)
    (hsep : sep = ',' ∨ sep = '.') :
    priceResidue (w1 ++ (pre ++ (ip ++ ((sep :: fp) ++ (suf ++ w2))))) =
      ip ++ '.' :: fp := by
  have hspP : ∀ c : Char, isSpace c = true → ¬ c = 'P' := by
    intro c hc h; subst h; revert hc; decide
  have hspk : ∀ c : Char, isSpace c = true → ¬ c = 'k' := by
    intro c hc h; subst h; revert hc; decide
  have hdgP : ∀ c : Char, c.isDigit = true → ¬ c = 'P' := by
    intro c hc h; subst h; revert hc; decide
  have hdgk : ∀ c : Char, c.isDigit = true → ¬ c = 'k' := by
    intro c hc h; subst h; revert hc; decide
  have hPw1 : 'P' ∉ w1 := fun h => hspP 'P' (hw1 'P' h) rfl
  have hPw2 : 'P' ∉ w2 := fun h => hspP 'P' (hw2 'P' h) rfl
  have hkw1 : 'k' ∉ w1 := fun h => hspk 'k' (hw1 'k' h) rfl
  have hkw2 : 'k' ∉ w2 := fun h => hspk 'k' (hw2 'k' h) rfl
  have hPip : 'P' ∉ ip := fun h => hdgP 'P' (hdip 'P' h) rfl
  have hkip : 'k' ∉ ip := fun h => hdgk 'k' (hdip 'k' h) rfl
  have hPfp : 'P' ∉ fp := fun h => hdgP 'P' (hdfp 'P' h) rfl
  have hkfp : 'k' ∉ fp := fun h => hdgk 'k' (hdfp 'k' h) rfl
  have hPsep : ¬ 'P' = sep := by rcases hsep with h | h <;> (subst h; decide)
  have hksep : ¬ 'k' = sep := by rcases hsep with h | h <;> (subst h; decide)
  have hPsf : 'P' ∉ (sep :: fp) := by
    intro h
    rcases List.mem_cons.mp h with h | h
    exacts [hPsep h, hPfp h]
  have hksf : 'k' ∉ (sep :: fp) := by
    intro h
    rcases List.mem_cons.mp h with h | h
    exacts [hksep h, hkfp h]
  have hPsuf : 'P' ∉ suf := by
    rcases hsuf with h | h | h <;> (subst h; decide)
  -- pass 1: remove the VAT label
  have e1 : pyReplace prisLabel [] (w1 ++ (pre ++ (ip ++ ((sep :: fp) ++ (suf ++ w2))))) =
      w1 ++ (ip ++ ((sep :: fp) ++ (suf ++ w2))) := by
    have hrest : 'P' ∉ ip ++ ((sep :: fp) ++ (suf ++ w2)) :=
      notMem_append _ _ _ hPip (notMem_append _ _ _ hPsf (notMem_append _ _ _ hPsuf hPw2))
    rcases hpre with rfl | rfl
    · simp only [List.nil_append]
      exact pyReplace_of_not_mem _ _ _ 'P' (by decide) (notMem_append _ _ _ hPw1 hrest)
    · rw [show prisLabel = 'P' :: "ris inkl. moms: ".toList from rfl]
      rw [pyReplace_skip_of_head_notMem 'P' _ _ w1 _ hPw1]
      rw [show ('P' :: "ris inkl. moms: ".toList) = prisLabel from rfl]
      rw [pyReplace_hit _ _ _ (by decide)]
      rw [pyReplace_of_not_mem _ _ _ 'P' (by decide) hrest]
      simp
  -- pass 2: remove " kr."
  have hb2 : ∀ tail : Str, (suf ++ w2).head? ≠ some 'k' := by
    intro _
    rcases hsuf with h | h | h
    · subst h
      simp only [List.nil_append]
      cases w2 with
      | nil => simp
      | cons c t =>
        simp only [List.head?_cons, ne_eq, Option.some.injEq]
        exact fun hh => hspk c (hw2 c (by simp)) hh
    · subst h; simp [krLabel]
    · subst h; simp [kwhLabel]
  have hsufkr : pyReplace krLabel [] (suf ++ w2) = (if suf = kwhLabel then kwhLabel else []) ++ w2 := by
    rcases hsuf with h | h | h
    · subst h
      simp only [List.nil_append]
      rw [pyReplace_of_not_mem _ _ _ 'k' (by decide) hkw2]
      simp [krLabel, kwhLabel]
    · subst h
      rw [pyReplace_hit _ _ _ (by decide),
        pyReplace_of_not_mem _ _ _ 'k' (by decide) hkw2]
      simp [krLabel, kwhLabel]
    · subst h
      rw [pyReplace_append_no_hit _ _ kwhLabel w2 ?hits]
      · rw [pyReplace_of_not_mem _ _ _ 'k' (by decide) hkw2]
        simp
      case hits =>
        intro k hk
        have h7 : kwhLabel.length = 7 := rfl
        rw [h7] at hk
        interval_cases k <;> rfl
  have e2 : pyReplace krLabel [] (w1 ++ (ip ++ ((sep :: fp) ++ (suf ++ w2)))) =
      w1 ++ (ip ++ ((sep :: fp) ++ ((if suf = kwhLabel then kwhLabel else []) ++ w2))) := by
    have hsh : w1 ++ (ip ++ ((sep :: fp) ++ (suf ++ w2))) =
        (w1 ++ (ip ++ (sep :: fp))) ++ (suf ++ w2) := by
      simp [List.append_assoc]
    rw [hsh]
    rw [show krLabel = ' ' :: 'k' :: "r.".toList from rfl]
    rw [pyReplace_skip_spacek ' ' 'k' _ _ _ _
      (notMem_append _ _ _ hkw1 (notMem_append _ _ _ hkip hksf)) (hb2 [])]
    rw [show (' ' :: 'k' :: "r.".toList) = krLabel from rfl, hsufkr]
    simp [List.append_assoc]
  -- pass 3: remove " kr/kWh"
  have e3 : pyReplace kwhLabel []
      (w1 ++ (ip ++ ((sep :: fp) ++ ((if suf = kwhLabel then kwhLabel else []) ++ w2)))) =
      w1 ++ (ip ++ ((sep :: fp) ++ w2)) := by
    by_cases hs : suf = kwhLabel
    · simp only [hs, if_true]
      have hsh : w1 ++ (ip ++ ((sep :: fp) ++ (kwhLabel ++ w2))) =
          (w1 ++ (ip ++ (sep :: fp))) ++ (kwhLabel ++ w2) := by
        simp [List.append_assoc]
      rw [hsh]
      rw [show kwhLabel = ' ' :: 'k' :: "r/kWh".toList from rfl]
      rw [pyReplace_skip_spacek ' ' 'k' _ _ _ _
        (notMem_append _ _ _ hkw1 (notMem_append _ _ _ hkip hksf)) (by simp)]
      rw [show (' ' :: 'k' :: "r/kWh".toList) = kwhLabel from rfl]
      rw [pyReplace_hit _ _ _ (by decide),
        pyReplace_of_not_mem _ _ _ 'k' (by decide) hkw2]
      simp [List.append_assoc]
    · simp only [hs, if_false, List.nil_append]
      exact pyReplace_of_not_mem _ _ _ 'k' (by decide)
        (notMem_append _ _ _ hkw1 (notMem_append _ _ _ hkip
          (notMem_append _ _ _ hksf hkw2)))
  -- pass 4: comma to dot
  have e4 : pyReplace [','] ['.'] (w1 ++ (ip ++ ((sep :: fp) ++ w2))) =
      w1 ++ (ip ++ ('.' :: (fp ++ w2))) := by
    rw [pyReplace_single]
    have hid : ∀ (l : Str), (∀ c ∈ l, ¬ c = ',') →
        l.map (fun c => if c = ',' then '.' else c) = l := by
      intro l hl
      calc l.map (fun c => if c = ',' then '.' else c)
          = l.map id := List.map_congr_left (fun a ha => by simp [hl a ha])
        _ = l := List.map_id l
    have hw1' : ∀ c ∈ w1, ¬ c = ',' := by
      intro c hc h; subst h; exact absurd (hw1 ',' hc) (by decide)
    have hw2' : ∀ c ∈ w2, ¬ c = ',' := by
      intro c hc h; subst h; exact absurd (hw2 ',' hc) (by decide)
    have hip' : ∀ c ∈ ip, ¬ c = ',' := by
      intro c hc h; subst h; exact absurd (hdip ',' hc) (by decide)
    have hfp' : ∀ c ∈ fp, ¬ c = ',' := by
      intro c hc h; subst h; exact absurd (hdfp ',' hc) (by decide)
    have hsep' : (if sep = ',' then '.' else sep) = '.' := by
      rcases hsep with h | h <;> simp [h]
    simp only [List.map_append, List.map_cons, hid w1 hw1', hid ip hip',
      hid fp hfp', hid w2 hw2', hsep']
    simp
  -- pass 5: strip
  have e5 : pyStrip (w1 ++ (ip ++ ('.' :: (fp ++ w2)))) = ip ++ '.' :: fp := by
    have hsh : w1 ++ (ip ++ ('.' :: (fp ++ w2))) = w1 ++ (ip ++ '.' :: fp) ++ w2 := by
      simp [List.append_assoc]
    rw [hsh]
    apply pyStrip_sandwich _ _ _ hw1 hw2 (by simp [hip])
    · intro d hd
      obtain ⟨c, t, rfl⟩ := List.exists_cons_of_ne_nil hip
      simp only [List.cons_append, List.head?_cons, Option.some.injEq] at hd
      exact hd ▸ isSpace_false_of_isDigit c (hdip c (by simp))
    · intro d hd
      rw [List.getLast?_append] at hd
      cases hy : fp.getLast? with
      | none => exact absurd (List.getLast?_eq_none_iff.mp hy) hfp
      | some y =>
        rw [show ('.' :: fp) = ['.'] ++ fp from rfl, List.getLast?_append, hy] at hd
        simp only [Option.or_some, Option.some.injEq] at hd
        subst hd
        exact isSpace_false_of_isDigit _ (hdfp y (mem_of_getLast?Eq fp y hy))
  rw [priceResidue, e1, e2, e3, e4, e5]

theorem clean_price_digits (ip fp : Str) (sep : Char)
    (hip : ip ≠ []) (hdip : ∀ c ∈ ip, c.isDigit = true)
    (hfp : fp ≠ []) (hlen : fp.length ≤ 2) (hdfp : ∀ c ∈ fp, c.isDigit = true)
    (hsep : sep = ',' ∨ sep = '.') :
    clean_price (ip ++ sep :: fp) =
      some (Nat.toDigits 10 (digitsVal ip) ++ '.' ::
        natTwoDigits (digitsVal fp * 10 ^ (2 - fp.length))) := by
  have hres := priceResidue_decorated [] [] [] [] ip fp sep (by simp) (by simp)
    (Or.inl rfl) (Or.inl rfl) hip hdip hfp hdfp hsep
  simp only [List.nil_append, List.append_nil] at hres
  rw [clean_price, hres, pyFloatParse_digits ip fp hip hdip hfp hdfp]
  simp only [Option.map_some']
  show some (formatTwoQ _) = _
  rw [formatTwoQ_decimal _ _ _ hlen (digitsVal_lt fp hdfp)]

/-- Claim C5: for every supported raw price string — optional
"Pris inkl. moms: " label, optional " kr." or " kr/kWh" suffix, a comma
or dot decimal separator, surrounding whitespace — the Price Normalizer
`_clean_price` returns the numeric value formatted with exactly two
decimal places; and for every string whose residue after stripping these
decorations is not a valid decimal number, it raises a normalization
error (`none`, modelling the `ValueError` from `float`). -/
theorem claimC5_price_normalizer :
    (∀ (w1 w2 pre suf ip fp : Str) (sep : Char),
      (∀ c ∈ w1, isSpace c = true) → (∀ c ∈ w2, isSpace c = true) →
      (pre = [] ∨ pre = prisLabel) →
      (suf = [] ∨ suf = krLabel ∨ suf = kwhLabel) →
      ip ≠ [] → (∀ c ∈ ip, c.isDigit = true) →
      fp ≠ [] → fp.length ≤ 2 → (∀ c ∈ fp, c.isDigit = true) →
      (sep = ',' ∨ sep = '.') →
      clean_price (w1 ++ (pre ++ (ip ++ ((sep :: fp) ++ (suf ++ w2))))) =
        some (Nat.toDigits 10 (digitsVal ip) ++ '.' ::
          natTwoDigits (digitsVal fp * 10 ^ (2 - fp.length)))) ∧
    (∀ s : Str, pyFloatParse (priceResidue s) = none → clean_price s = none) := by
  constructor
  · intro w1 w2 pre suf ip fp sep hw1 hw2 hpre hsuf hip hdip hfp hlen hdfp hsep
    rw [clean_price, priceResidue_decorated w1 w2 pre suf ip fp sep hw1 hw2 hpre
      hsuf hip hdip hfp hdfp hsep, pyFloatParse_digits ip fp hip hdip hfp hdfp]
    simp only [Option.map_some']
    show some (formatTwoQ _) = _
    rw [formatTwoQ_decimal _ _ _ hlen (digitsVal_lt fp hdfp)]
  · intro s h
    rw [clean_price, h]
    rfl

/-- Witness for claim C5 at the spec's example inputs (two decorated
values, one bare value, one malformed string). -/
theorem claimC5_price_normalizer_witness :
    clean_price "Pris inkl. moms: 12,34 kr.".toList = some "12.34".toList ∧
    clean_price "10,5 kr/kWh".toList = some "10.50".toList ∧
    clean_price "9.99".toList = some "9.99".toList ∧
    clean_price "x12".toList = none := by
  refine ⟨?_, ?_, ?_, ?_⟩
  · have h := claimC5_price_normalizer.1 [] [] prisLabel krLabel
      "12".toList "34".toList ',' (by simp) (by simp) (Or.inr rfl)
      (Or.inr (Or.inl rfl)) (by decide) (by decide) (by decide) (by decide)
      (by decide) (Or.inl rfl)
    rw [show "Pris inkl. moms: 12,34 kr.".toList =
      [] ++ (prisLabel ++ ("12".toList ++ ((',' :: "34".toList) ++ (krLabel ++ []))))
      from by decide]
    rw [h]
    decide
  · have h := claimC5_price_normalizer.1 [] [] [] kwhLabel
      "10".toList "5".toList ',' (by simp) (by simp) (Or.inl rfl)
      (Or.inr (Or.inr rfl)) (by decide) (by decide) (by decide) (by decide)
      (by decide) (Or.inl rfl)
    rw [show "10,5 kr/kWh".toList =
      [] ++ ([] ++ ("10".toList ++ ((',' :: "5".toList) ++ (kwhLabel ++ []))))
      from by decide]
    rw [h]
    decide
  · have h := claimC5_price_normalizer.1 [] [] [] []
      "9".toList "99".toList '.' (by simp) (by simp) (Or.inl rfl)
      (Or.inl rfl) (by decide) (by decide) (by decide) (by decide)
      (by decide) (Or.inr rfl)
    rw [show "9.99".toList =
      [] ++ ([] ++ ("9".toList ++ (('.' :: "99".toList) ++ ([] ++ []))))
      from by decide]
    rw [h]
    decide
  · exact claimC5_price_normalizer.2 _ (by decide)

theorem catLookup_update_self (cat : Catalog) (k : Str) (f : ProdRec → ProdRec) :
    catLookup k (catUpdate cat k f) = (catLookup k cat).map f := by
  induction cat with
  | nil => rfl
  | cons p t ih =>
    by_cases h : p.1 = k
    · simp [catLookup, catUpdate, List.find?_cons, h]
    · have hbeq : (p.1 == k) = false := by simp [h]
      simp only [catLookup, catUpdate, List.map_cons, hbeq, Bool.false_eq_true,
        if_false, List.find?_cons] at ih ⊢
      exact ih

theorem catLookup_update_other (cat : Catalog) (k k' : Str) (f : ProdRec → ProdRec)
    (h : k' ≠ k) :
    catLookup k' (catUpdate cat k f) = catLookup k' cat := by
  induction cat with
  | nil => rfl
  | cons p t ih =>
    by_cases hp : p.1 = k
    · have hb1 : (p.1 == k) = true := by simp [hp]
      have hb2 : (p.1 == k') = false := by
        simp only [beq_eq_false_iff_ne, ne_eq]
        intro hh
        exact h (hh ▸ hp)
      simp only [catLookup, catUpdate, List.map_cons, hb1, if_true, List.find?_cons,
        hb2] at ih ⊢
      exact ih
    · have hb1 : (p.1 == k) = false := by simp [hp]
      simp only [catLookup, catUpdate, List.map_cons, hb1, Bool.false_eq_true,
        if_false, List.find?_cons] at ih ⊢
      cases hb2 : (p.1 == k') with
      | true => rfl
      | false => exact ih

theorem set_price_eval (cat : Catalog) (k raw : Str) (now : Nat) (v : PyFloat)
    (hv : priceOf raw = some v) (hk : (catLookup k cat).isSome = true) :
    set_price cat k raw now =
      .ok (catUpdate cat k (fun r => { r with price := some v, lastUpdate := some now })) := by
  rw [set_price, hv]
  obtain ⟨r, hr⟩ := Option.isSome_iff_exists.mp hk
  rw [hr]

theorem set_price_ok_inv (cat : Catalog) (k raw : Str) (now : Nat) (cat2 : Catalog)
    (h : set_price cat k raw now = .ok cat2) :
    ∃ v, priceOf raw = some v ∧
      cat2 = catUpdate cat k (fun r => { r with price := some v, lastUpdate := some now }) := by
  rw [set_price] at h
  cases hv : priceOf raw with
  | none => rw [hv] at h; cases h
  | some v =>
    rw [hv] at h
    cases hk : catLookup k cat with
    | none => rw [hk] at h; cases h
    | some r =>
      rw [hk] at h
      cases h
      exact ⟨v, rfl, rfl⟩

/-- An `idxLookup` hit names an entry of the index. -/
theorem idxLookup_mem (idx : NameIdx) (n k : Str) (h : idxLookup idx n = some k) :
    ∃ e ∈ idx, e.1 = n ∧ e.2 = k := by
  rw [idxLookup] at h
  cases hf : idx.find? (fun e => e.1 == n) with
  | none => rw [hf] at h; cases h
  | some e =>
    rw [hf] at h
    have hm := List.mem_of_find?_eq_some hf
    have hp := List.find?_some hf
    simp only [beq_iff_eq] at hp
    cases h
    exact ⟨e, hm, hp, rfl⟩

theorem priceOf_1234 : priceOf "12,34".toList = some (.fin (617 / 50 : ℚ)) := by
  have h1 : clean_price "12,34".toList = some "12.34".toList := by
    have h := clean_price_digits "12".toList "34".toList ','
      (by decide) (by decide) (by decide) (by decide) (by decide) (Or.inl rfl)
    rw [show "12,34".toList = "12".toList ++ ',' :: "34".toList from rfl, h]
    decide
  rw [priceOf, h1]
  show pyFloatParse "12.34".toList = _
  rw [show "12.34".toList = "12".toList ++ '.' :: "34".toList from rfl,
    pyFloatParse_digits "12".toList "34".toList (by decide) (by decide) (by decide)
      (by decide)]
  have h2 : digitsVal "12".toList = 12 := rfl
  have h3 : digitsVal "34".toList = 34 := rfl
  rw [h2, h3]
  simp only [Option.some.injEq, PyFloat.fin.injEq, List.length_cons, List.length_nil]
  norm_num

theorem priceOf_1500 : priceOf "15,00".toList = some (.fin (15 : ℚ)) := by
  have h1 : clean_price "15,00".toList = some "15.00".toList := by
    have h := clean_price_digits "15".toList "00".toList ','
      (by decide) (by decide) (by decide) (by decide) (by decide) (Or.inl rfl)
    rw [show "15,00".toList = "15".toList ++ ',' :: "00".toList from rfl, h]
    decide
  rw [priceOf, h1]
  show pyFloatParse "15.00".toList = _
  rw [show "15.00".toList = "15".toList ++ '.' :: "00".toList from rfl,
    pyFloatParse_digits "15".toList "00".toList (by decide) (by decide) (by decide)
      (by decide)]
  have h2 : digitsVal "15".toList = 15 := rfl
  have h3 : digitsVal "00".toList = 0 := rfl
  rw [h2, h3]
  simp only [Option.some.injEq, PyFloat.fin.injEq, List.length_cons, List.length_nil]
  norm_num

/-- Claim C10: product-name cleaning requires a non-empty residue: it
raises an IndexError exactly when the cell text reduces to the empty
string after stripping the "Beskrivelse: " label and whitespace (the code
unconditionally inspects the last character to drop a trailing period);
consequently a table scan that reads such a cell fails with that
IndexError rather than skipping the row. -/
theorem claimC10_clean_name_requires_residue :
    ∀ s : Str,
      (clean_product_name s = .error .indexError ↔
        pyStrip (pyReplace beskLabel [] s) = []) ∧
      (∀ (pc qc : Nat) (idx : NameIdx) (now : Nat) rows found cat (cells : List Str),
        cells ≠ [] → cells[pc]? = some s →
        pyStrip (pyReplace beskLabel [] s) = [] →
        tableGo pc qc idx now (cells :: rows) found cat = .error .indexError) := by
  intro s
  have hiff : clean_product_name s = .error .indexError ↔
      pyStrip (pyReplace beskLabel [] s) = [] := by
    rw [clean_product_name]
    cases hg : (pyStrip (pyReplace beskLabel [] s)).getLast? with
    | none =>
      simp only [hg]
      simp [List.getLast?_eq_none_iff.mp hg]
    | some c =>
      simp only [hg]
      constructor
      · intro hh
        exact absurd hh (by simp)
      · intro hh
        rw [hh] at hg
        cases hg
  refine ⟨hiff, ?_⟩
  intro pc qc idx now rows found cat cells hne hcell hres
  have hclean : clean_product_name s = .error .indexError := hiff.mpr hres
  simp only [tableGo, hne, if_false, hcell, hclean]

/-- Witness for claim C10: an all-whitespace cell makes the cleaner and a
scan that reads it raise an IndexError. -/
theorem claimC10_clean_name_requires_residue_witness :
    clean_product_name "   ".toList = .error .indexError ∧
    tableGo 1 2 [] 7 [["a".toList, "   ".toList]] [] [] = .error .indexError := by
  constructor
  · exact (claimC10_clean_name_requires_residue "   ".toList).1.mpr (by decide)
  · exact (claimC10_clean_name_requires_residue "   ".toList).2 1 2 [] 7 [] [] []
      ["a".toList, "   ".toList] (by decide) (by decide) (by decide)

/-- Counterexample to claim C7: with productColumn 1, priceColumn 2, a row
holding one single cell has fewer than max(1,2)+1 = 3 cells, yet the
generic table scan examines it and aborts with an IndexError (an
out-of-range cell access) instead of leaving it untouched. -/
theorem claimC7_counterexample :
    get_data_from_table 1 2 (mkNameIdx circlekProducts) 0 [["x".toList]]
      circlekProducts = .error .indexError := rfl

/-- Claim C7 amended: the scan skips only rows with zero cells; a row with
at least one cell is examined regardless of its length, and when its cell
count is at most productColumn the scan aborts with an IndexError instead
of skipping it (no `max(productColumn, priceColumn)+1` guard exists). -/
theorem claimC7_amended (pc qc : Nat) (idx : NameIdx) (now : Nat) :
    (∀ rows found cat,
      tableGo pc qc idx now ([] :: rows) found cat =
        tableGo pc qc idx now rows found cat) ∧
    (∀ (cells : List Str) rows found cat, cells ≠ [] → cells.length ≤ pc →
      tableGo pc qc idx now (cells :: rows) found cat = .error .indexError) := by
  constructor
  · intro rows found cat
    simp [tableGo]
  · intro cells rows found cat hne hlen
    have hcell : cells[pc]? = none := List.getElem?_eq_none hlen
    simp only [tableGo, hne, if_false, hcell]

/-- Witness for the amended claim C7: a zero-cell row is skipped, and a
one-cell row under columns (1,2) raises the IndexError. -/
theorem claimC7_amended_witness :
    tableGo 1 2 [] 0 ([] :: [["x".toList, "y".toList, "z".toList]]) [] [] =
      tableGo 1 2 [] 0 [["x".toList, "y".toList, "z".toList]] [] [] ∧
    tableGo 1 2 [] 0 [["x".toList]] [] [] = .error .indexError :=
  ⟨(claimC7_amended 1 2 [] 0).1 _ _ _,
   (claimC7_amended 1 2 [] 0).2 ["x".toList] [] [] [] (by decide) (by decide)⟩

/-- Claim C2 (exhibiting the code bug): `load_companies [] []` does
construct all nine known sources in declaration order, but because
`FuelCompany.__init__` filters with `is not None`, the empty product list
removes every product: each constructed catalog is empty, while the
built-in catalogs (kept only when the filter is `None`) are not. -/
theorem claimC2_load_empty_filter_empties_catalogs :
    (load_companies [] (some [])).map (fun p => p.1) = company_keys ∧
    (load_companies [] (some [])).map (fun p => p.2) =
      [[], [], [], [], [], [], [], [], []] ∧
    (load_companies [] none).map (fun p => p.2.length) =
      [5, 5, 2, 3, 3, 3, 6, 5, 4] := by
  refine ⟨?_, ?_, ?_⟩ <;> rfl

theorem tableGo_cons_set (pc qc : Nat) (idx : NameIdx) (now : Nat)
    (cells : List Str) (rows : List (List Str)) (found : List Str) (cat : Catalog)
    (c1 pname key praw : Str) (v : PyFloat)
    (h1 : cells ≠ []) (h2 : cells[pc]? = some c1)
    (h3 : clean_product_name c1 = .ok pname)
    (h4 : pname ∉ found)
    (h5 : idxLookup idx pname = some key)
    (h6 : cells[qc]? = some praw)
    (hv : priceOf praw = some v)
    (hk : (catLookup key cat).isSome = true) :
    tableGo pc qc idx now (cells :: rows) found cat =
      tableGo pc qc idx now rows (pname :: found)
        (catUpdate cat key (fun r => { r with price := some v, lastUpdate := some now })) := by
  simp only [tableGo, h1, if_false, h2, h3, h4, if_false, h5, h6,
    set_price_eval cat key praw now v hv hk]

theorem tableGo_cons_skip_found (pc qc : Nat) (idx : NameIdx) (now : Nat)
    (cells : List Str) (rows : List (List Str)) (found : List Str) (cat : Catalog)
    (c1 pname : Str)
    (h1 : cells ≠ []) (h2 : cells[pc]? = some c1)
    (h3 : clean_product_name c1 = .ok pname)
    (h4 : pname ∈ found) :
    tableGo pc qc idx now (cells :: rows) found cat =
      tableGo pc qc idx now rows found cat := by
  simp only [tableGo, h1, if_false, h2, h3, h4, if_true]

theorem tableGo_found_frozen (pc qc : Nat) (idx : NameIdx) (now : Nat)
    (rows : List (List Str)) (found : List Str) (cat cat2 : Catalog)
    (n k : Str)
    (hfound : n ∈ found)
    (hinj : ∀ e ∈ idx, e.2 = k → e.1 = n)
    (hok : tableGo pc qc idx now rows found cat = .ok cat2) :
    catLookup k cat2 = catLookup k cat := by
  induction rows generalizing found cat with
  | nil =>
    simp only [tableGo] at hok
    cases hok
    rfl
  | cons cells rows ih =>
    by_cases hc : cells = []
    · rw [show tableGo pc qc idx now (cells :: rows) found cat =
        tableGo pc qc idx now rows found cat from by simp [tableGo, hc]] at hok
      exact ih found cat hfound hok
    · simp only [tableGo, hc, if_false] at hok
      cases hcell : cells[pc]? with
      | none => simp only [hcell] at hok; cases hok
      | some raw =>
        simp only [hcell] at hok
        cases hclean : clean_product_name raw with
        | error e => simp only [hclean] at hok; cases hok
        | ok pname =>
          simp only [hclean] at hok
          by_cases hmem : pname ∈ found
          · rw [if_pos hmem] at hok
            exact ih found cat hfound hok
          · rw [if_neg hmem] at hok
            cases hidx : idxLookup idx pname with
            | none =>
              simp only [hidx] at hok
              exact ih found cat hfound hok
            | some key =>
              simp only [hidx] at hok
              cases hq : cells[qc]? with
              | none => simp only [hq] at hok; cases hok
              | some praw =>
                simp only [hq] at hok
                cases hset : set_price cat key praw now with
                | error e => simp only [hset] at hok; cases hok
                | ok catm =>
                  simp only [hset] at hok
                  have hkey : key ≠ k := by
                    intro hkk
                    obtain ⟨e, hem, he1, he2⟩ := idxLookup_mem idx pname key hidx
                    have hen := hinj e hem (he2.trans hkk)
                    have hpn : pname = n := he1.symm.trans hen
                    exact hmem (hpn ▸ hfound)
                  obtain ⟨v, hv, rfl⟩ := set_price_ok_inv cat key praw now catm hset
                  have hstep := ih (pname :: found) _ (List.mem_cons_of_mem _ hfound) hok
                  rw [hstep, catLookup_update_other cat key k _ (Ne.symm hkey)]

/-- Claim C3: in a single pass of the generic table scan, the first row
whose cleaned display name matches the reverse name index determines the
price stored for that product kind; every later row carrying the same
display name (in particular a duplicate row with a different price) is
ignored — first matching row wins. -/
theorem claimC3_table_first_match_wins
    (pc qc now : Nat) (idx : NameIdx) (k n : Str)
    (row1 : List Str) (rest : List (List Str)) (cat cat2 : Catalog)
    (c1 praw : Str) (v : PyFloat)
    (h1 : row1 ≠ []) (h2 : row1[pc]? = some c1)
    (h3 : clean_product_name c1 = .ok n)
    (h4 : idxLookup idx n = some k)
    (hinj : ∀ e ∈ idx, e.2 = k → e.1 = n)
    (h5 : row1[qc]? = some praw)
    (hv : priceOf praw = some v)
    (hk : (catLookup k cat).isSome = true)
    (hok : get_data_from_table pc qc idx now (row1 :: rest) cat = .ok cat2) :
    (catLookup k cat2).map (fun r => r.price) = some (some v) := by
  rw [get_data_from_table,
    tableGo_cons_set pc qc idx now row1 rest [] cat c1 n k praw v h1 h2 h3
      (List.not_mem_nil n) h4 h5 hv hk] at hok
  have hfr := tableGo_found_frozen pc qc idx now rest [n] _ cat2 n k (by simp)
    hinj hok
  rw [hfr, catLookup_update_self]
  obtain ⟨r, hr⟩ := Option.isSome_iff_exists.mp hk
  rw [hr]
  rfl

/-- Witness for claim C3: a two-row OIL!-style table (columns (0,2)) with
display name "Diesel" twice and different prices keeps the first price
12.34, not 15.00. -/
theorem claimC3_table_first_match_wins_witness :
    ∃ cat2,
      get_data_from_table 0 2 (mkNameIdx oilProducts) 7
        [["Diesel".toList, "x".toList, "12,34".toList],
         ["Diesel".toList, "x".toList, "15,00".toList]] oilProducts = .ok cat2 ∧
      (catLookup kDiesel cat2).map (fun r => r.price) =
        some (some (.fin (617 / 50 : ℚ))) := by
  have hok : get_data_from_table 0 2 (mkNameIdx oilProducts) 7
      [["Diesel".toList, "x".toList, "12,34".toList],
       ["Diesel".toList, "x".toList, "15,00".toList]] oilProducts =
      .ok (catUpdate oilProducts kDiesel
        (fun r => { r with price := some (.fin (617 / 50 : ℚ)), lastUpdate := some 7 })) := by
    rw [get_data_from_table,
      tableGo_cons_set 0 2 (mkNameIdx oilProducts) 7 _ _ [] oilProducts
        "Diesel".toList "Diesel".toList kDiesel "12,34".toList _
        (by decide) (by decide) rfl (by decide) (by decide) (by decide)
        priceOf_1234 (by decide),
      tableGo_cons_skip_found 0 2 (mkNameIdx oilProducts) 7 _ _ _ _
        "Diesel".toList "Diesel".toList
        (by decide) (by decide) rfl (by decide)]
    rfl
  exact ⟨_, hok,
    claimC3_table_first_match_wins 0 2 7 (mkNameIdx oilProducts) kDiesel
      "Diesel".toList _ _ oilProducts _ "Diesel".toList "12,34".toList _
      (by decide) (by decide) rfl (by decide) (by decide) (by decide)
      priceOf_1234 (by decide) hok⟩

theorem unoxGo_cons_accept (idx : NameIdx) (now : Nat) (r : UnoxRec)
    (rs : List UnoxRec) (cat : Catalog) (key : Str) (prod : ProdRec) (v : PyFloat)
    (h1 : idxLookup idx r.product = some key)
    (h2 : catLookup key cat = some prod)
    (h3 : ∀ e, prod.epochDUE = some e → e ≤ r.epoch)
    (hv : priceOf r.pumpPrice = some v) :
    unoxGo idx now (r :: rs) cat =
      unoxGo idx now rs
        (catUpdate (catUpdate cat key
          (fun p => { p with price := some v, lastUpdate := some now })) key
          (fun p => { p with epochDUE := some r.epoch })) := by
  have haccept : (match prod.epochDUE with
      | none => true
      | some e => decide (e ≤ r.epoch)) = true := by
    cases he : prod.epochDUE with
    | none => rfl
    | some e => exact decide_eq_true (h3 e he)
  have hsome : (catLookup key cat).isSome = true := by rw [h2]; rfl
  simp only [unoxGo, h1, h2, haccept, if_true,
    set_price_eval cat key r.pumpPrice now v hv hsome]

theorem unoxGo_cons_reject (idx : NameIdx) (now : Nat) (r : UnoxRec)
    (rs : List UnoxRec) (cat : Catalog) (key : Str) (prod : ProdRec) (e : Int)
    (h1 : idxLookup idx r.product = some key)
    (h2 : catLookup key cat = some prod)
    (h3 : prod.epochDUE = some e) (h4 : ¬ e ≤ r.epoch) :
    unoxGo idx now (r :: rs) cat = unoxGo idx now rs cat := by
  simp only [unoxGo, h1, h2, h3]
  simp [h4]

/-- Claim C4: for the recency-keyed regex-JSON source (Uno-X), when the
document contains two records for the same subscribed product kind with a
lower and a strictly higher epoch, in either document order, the price
finally stored for that kind is the higher-epoch record's: a record is
accepted only if no epoch was stored yet for that kind, or its epoch is
greater than or equal to the stored one. -/
theorem claimC4_unox_recency (idx : NameIdx) (now : Nat) (k n : Str)
    (cat : Catalog) (rec0 : ProdRec) (e1 e2 : Int) (p1 p2 : Str) (v1 v2 : PyFloat)
    (hidx : idxLookup idx n = some k)
    (hk : catLookup k cat = some rec0) (hfresh : rec0.epochDUE = none)
    (he : e1 < e2)
    (hv1 : priceOf p1 = some v1) (hv2 : priceOf p2 = some v2) :
    (∃ catA, unoxGo idx now [⟨n, e1, p1⟩, ⟨n, e2, p2⟩] cat = .ok catA ∧
      (catLookup k catA).map (fun r => r.price) = some (some v2)) ∧
    (∃ catB, unoxGo idx now [⟨n, e2, p2⟩, ⟨n, e1, p1⟩] cat = .ok catB ∧
      (catLookup k catB).map (fun r => r.price) = some (some v2)) := by
  constructor
  · -- lower epoch first: both records are accepted, the second overwrites
    have hstep1 := unoxGo_cons_accept idx now ⟨n, e1, p1⟩ [⟨n, e2, p2⟩] cat k rec0 v1
      hidx hk (fun e hh => absurd (hfresh ▸ hh) (by simp)) hv1
    have hlk1 : catLookup k (catUpdate (catUpdate cat k
        (fun p => { p with price := some v1, lastUpdate := some now })) k
        (fun p => { p with epochDUE := some (⟨n, e1, p1⟩ : UnoxRec).epoch })) =
        some { rec0 with price := some v1, lastUpdate := some now, epochDUE := some e1 } := by
      rw [catLookup_update_self, catLookup_update_self, hk]
      rfl
    have hstep2 := unoxGo_cons_accept idx now ⟨n, e2, p2⟩ [] _ k
      { rec0 with price := some v1, lastUpdate := some now, epochDUE := some e1 } v2
      hidx hlk1 (fun e hh => by
        simp only [Option.some.injEq] at hh
        exact hh ▸ he.le) hv2
    refine ⟨_, by rw [hstep1, hstep2]; rfl, ?_⟩
    rw [catLookup_update_self, catLookup_update_self, hlk1]
    rfl
  · -- higher epoch first: the second record is rejected
    have hstep1 := unoxGo_cons_accept idx now ⟨n, e2, p2⟩ [⟨n, e1, p1⟩] cat k rec0 v2
      hidx hk (fun e hh => absurd (hfresh ▸ hh) (by simp)) hv2
    have hlk1 : catLookup k (catUpdate (catUpdate cat k
        (fun p => { p with price := some v2, lastUpdate := some now })) k
        (fun p => { p with epochDUE := some (⟨n, e2, p2⟩ : UnoxRec).epoch })) =
        some { rec0 with price := some v2, lastUpdate := some now, epochDUE := some e2 } := by
      rw [catLookup_update_self, catLookup_update_self, hk]
      rfl
    have hstep2 := unoxGo_cons_reject idx now ⟨n, e1, p1⟩ [] _ k
      { rec0 with price := some v2, lastUpdate := some now, epochDUE := some e2 } e2
      hidx hlk1 rfl (not_le.mpr he)
    refine ⟨_, by rw [hstep1, hstep2]; rfl, ?_⟩
    rw [hlk1]
    rfl

/-- Witness for claim C4: Uno-X "Diesel" records at epochs 100 and 200
with prices 12.34 and 15.00: in both document orders the stored price is
the epoch-200 record's 15.00. -/
theorem claimC4_unox_recency_witness :
    (∃ catA, unoxGo (mkNameIdx unoxProducts) 9
        [⟨"Diesel".toList, 100, "12,34".toList⟩,
         ⟨"Diesel".toList, 200, "15,00".toList⟩] unoxProducts = .ok catA ∧
      (catLookup kDiesel catA).map (fun r => r.price) =
        some (some (.fin (15 : ℚ)))) ∧
    (∃ catB, unoxGo (mkNameIdx unoxProducts) 9
        [⟨"Diesel".toList, 200, "15,00".toList⟩,
         ⟨"Diesel".toList, 100, "12,34".toList⟩] unoxProducts = .ok catB ∧
      (catLookup kDiesel catB).map (fun r => r.price) =
        some (some (.fin (15 : ℚ)))) :=
  claimC4_unox_recency (mkNameIdx unoxProducts) 9 kDiesel "Diesel".toList
    unoxProducts _ 100 200 "12,34".toList "15,00".toList _ _
    (by decide) rfl rfl (by decide) priceOf_1234 priceOf_1500

theorem okGo_cons_set (idx : NameIdx) (now : Nat) (cells : List Str)
    (rows : List (List Str)) (cat : Catalog) (c1 pname key praw : Str) (v : PyFloat)
    (h1 : cells ≠ []) (h2 : cells[0]? = some c1)
    (h3 : clean_product_name c1 = .ok pname)
    (h5 : idxLookup idx pname = some key)
    (h6 : cells[1]? = some praw)
    (hv : priceOf praw = some v)
    (hk : (catLookup key cat).isSome = true) :
    okGo idx now (cells :: rows) cat =
      okGo idx now rows
        (catUpdate cat key (fun r => { r with price := some v, lastUpdate := some now })) := by
  simp only [okGo, h1, if_false, h2, h3, h5, h6,
    set_price_eval cat key praw now v hv hk]

theorem okGo_append (idx : NameIdx) (now : Nat) (a b : List (List Str)) (cat : Catalog) :
    okGo idx now (a ++ b) cat =
      match okGo idx now a cat with
      | .ok c => okGo idx now b c
      | .error e => .error e := by
  induction a generalizing cat with
  | nil => simp [okGo]
  | cons cells rows ih =>
    by_cases hc : cells = []
    · subst hc
      simp only [List.cons_append, okGo, if_true]
      exact ih cat
    · simp only [List.cons_append, okGo, hc, if_false]
      cases h0 : cells[0]? with
      | none => simp only [h0]
      | some raw =>
        simp only [h0]
        cases hcl : clean_product_name raw with
        | error e => simp only [hcl]
        | ok pname =>
          simp only [hcl]
          cases hix : idxLookup idx pname with
          | none =>
            simp only [hix]
            exact ih cat
          | some key =>
            simp only [hix]
            cases h1x : cells[1]? with
            | none => simp only [h1x]
            | some praw =>
              simp only [h1x]
              cases hsp : set_price cat key praw now with
              | error e => simp only [hsp]
              | ok cat2 =>
                simp only [hsp]
                exact ih cat2

/-- Counterexample to claim C6: on a document whose two rows carry the
same matching display name "Blyfri 95" with different prices, the OK
grid-role scan stores the LAST row's price (15.00) while the generic
table scan on the same rows stores the FIRST row's (12.34), so the two
scans do not behave the same on duplicate rows. -/
theorem claimC6_counterexample :
    ∃ catG catT,
      okGo (mkNameIdx okProducts) 3
        [["Blyfri 95".toList, "12,34".toList],
         ["Blyfri 95".toList, "15,00".toList]] okProducts = .ok catG ∧
      get_data_from_table 0 1 (mkNameIdx okProducts) 3
        [["Blyfri 95".toList, "12,34".toList],
         ["Blyfri 95".toList, "15,00".toList]] okProducts = .ok catT ∧
      (catLookup kOctane95 catG).map (fun r => r.price) =
        some (some (.fin (15 : ℚ))) ∧
      (catLookup kOctane95 catT).map (fun r => r.price) =
        some (some (.fin (617 / 50 : ℚ))) ∧
      PyFloat.fin (15 : ℚ) ≠ PyFloat.fin (617 / 50 : ℚ) := by
  have hG : okGo (mkNameIdx okProducts) 3
      [["Blyfri 95".toList, "12,34".toList],
       ["Blyfri 95".toList, "15,00".toList]] okProducts =
      .ok (catUpdate (catUpdate okProducts kOctane95
        (fun r => { r with price := some (.fin (617 / 50 : ℚ)), lastUpdate := some 3 }))
        kOctane95
        (fun r => { r with price := some (.fin (15 : ℚ)), lastUpdate := some 3 })) := by
    rw [okGo_cons_set (mkNameIdx okProducts) 3 _ _ okProducts
      "Blyfri 95".toList "Blyfri 95".toList kOctane95 "12,34".toList _
      (by decide) (by decide) rfl (by decide) (by decide) priceOf_1234 (by decide)]
    rw [okGo_cons_set (mkNameIdx okProducts) 3 _ _ _
      "Blyfri 95".toList "Blyfri 95".toList kOctane95 "15,00".toList _
      (by decide) (by decide) rfl (by decide) (by decide) priceOf_1500
      (by rw [catLookup_update_self]; rfl)]
    rfl
  have hT : get_data_from_table 0 1 (mkNameIdx okProducts) 3
      [["Blyfri 95".toList, "12,34".toList],
       ["Blyfri 95".toList, "15,00".toList]] okProducts =
      .ok (catUpdate okProducts kOctane95
        (fun r => { r with price := some (.fin (617 / 50 : ℚ)), lastUpdate := some 3 })) := by
    rw [get_data_from_table,
      tableGo_cons_set 0 1 (mkNameIdx okProducts) 3 _ _ [] okProducts
        "Blyfri 95".toList "Blyfri 95".toList kOctane95 "12,34".toList _
        (by decide) (by decide) rfl (by decide) (by decide) (by decide)
        priceOf_1234 (by decide),
      tableGo_cons_skip_found 0 1 (mkNameIdx okProducts) 3 _ _ _ _
        "Blyfri 95".toList "Blyfri 95".toList
        (by decide) (by decide) rfl (by decide)]
    rfl
  refine ⟨_, _, hG, hT, ?_, ?_, ?_⟩
  · rw [catLookup_update_self, catLookup_update_self]
    rfl
  · rw [catLookup_update_self]
    rfl
  · simp only [ne_eq, PyFloat.fin.injEq]
    norm_num

/-- Claim C6 amended: the grid-role scan locates rows and cells by role
attribute and matches cleaned display names against the reverse index
like the generic table scan, but it has no first-match deduplication: a
matching row always overwrites, so the LAST matching row's price wins
(whereas the generic table scan keeps the FIRST matching row's price). -/
theorem claimC6_amended (idx : NameIdx) (now : Nat)
    (early : List (List Str)) (cells : List Str) (cat catE : Catalog)
    (c1 pname key praw : Str) (v : PyFloat)
    (hearly : okGo idx now early cat = .ok catE)
    (h1 : cells ≠ []) (h2 : cells[0]? = some c1)
    (h3 : clean_product_name c1 = .ok pname)
    (h5 : idxLookup idx pname = some key)
    (h6 : cells[1]? = some praw)
    (hv : priceOf praw = some v)
    (hk : (catLookup key catE).isSome = true) :
    ∃ cat2, okGo idx now (early ++ [cells]) cat = .ok cat2 ∧
      (catLookup key cat2).map (fun r => r.price) = some (some v) := by
  rw [okGo_append]
  simp only [hearly]
  rw [okGo_cons_set idx now cells [] catE c1 pname key praw v h1 h2 h3 h5 h6 hv hk]
  refine ⟨_, rfl, ?_⟩
  rw [catLookup_update_self]
  obtain ⟨r, hr⟩ := Option.isSome_iff_exists.mp hk
  rw [hr]
  rfl

/-- Witness for the amended claim C6: whatever a first matching row put
in place, a later matching row's price (15.00) is what remains stored. -/
theorem claimC6_amended_witness :
    ∃ cat2, okGo (mkNameIdx okProducts) 3
      ([["Blyfri 95".toList, "12,34".toList]] ++ [["Blyfri 95".toList, "15,00".toList]])
      okProducts = .ok cat2 ∧
      (catLookup kOctane95 cat2).map (fun r => r.price) =
        some (some (.fin (15 : ℚ))) := by
  have hearly : okGo (mkNameIdx okProducts) 3
      [["Blyfri 95".toList, "12,34".toList]] okProducts =
      .ok (catUpdate okProducts kOctane95
        (fun r => { r with price := some (.fin (617 / 50 : ℚ)), lastUpdate := some 3 })) := by
    rw [okGo_cons_set (mkNameIdx okProducts) 3 _ _ okProducts
      "Blyfri 95".toList "Blyfri 95".toList kOctane95 "12,34".toList _
      (by decide) (by decide) rfl (by decide) (by decide) priceOf_1234 (by decide)]
    rfl
  exact claimC6_amended (mkNameIdx okProducts) 3 _ _ okProducts _
    "Blyfri 95".toList "Blyfri 95".toList kOctane95 "15,00".toList _
    hearly (by decide) (by decide) rfl (by decide) (by decide) priceOf_1500
    (by rw [catLookup_update_self]; rfl)

/-- Counterexample to claim C1: with the Shell source first (its fetched
body failing to JSON-decode) and another source after it in registry
order, the JSONDecodeError escapes `refresh()` after only the first
source was attempted — the source after it is NOT attempted in the same
pass, contrary to the claim. -/
theorem claimC1_counterexample :
    (refreshGo [mkShellCompany none (.ok none) 4,
      mkOkCompany none (.ok []) 4]).attempted = 1 ∧
    (refreshGo [mkShellCompany none (.ok none) 4,
      mkOkCompany none (.ok []) 4]).uncaught = some .jsonDecodeError ∧
    [mkShellCompany none (.ok none) 4, mkOkCompany none (.ok []) 4].length = 2 :=
  ⟨rfl, rfl, rfl⟩

/-- Claim C1 amended: when a source's `refresh_prices` raises an
exception the per-source guard does not catch (anything other than a
read/connect timeout or HTTP error — e.g. Shell's JSON decode error),
the exception propagates out of `refresh()` itself: sources before it ran
normally, the raising source counts as attempted, and NO source after it
in registry iteration order is attempted in that pass. -/
theorem claimC1_amended (pre : List CompanyM) (c : CompanyM) (post : List CompanyM)
    (e : PyExn)
    (hpre : ∀ c' ∈ pre, runEscapes c' = false)
    (hc : c.run c.cat = .error e) (hunc : caught e = false) :
    (refreshGo (pre ++ c :: post)).attempted = pre.length + 1 ∧
    (refreshGo (pre ++ c :: post)).uncaught = some e := by
  induction pre with
  | nil =>
    rw [List.nil_append]
    simp [refreshGo, hc, hunc]
  | cons c' pre ih =>
    have h' := hpre c' (List.mem_cons_self _ _)
    have ih' := ih (fun x hx => hpre x (List.mem_cons_of_mem _ hx))
    rw [List.cons_append]
    cases hr : c'.run c'.cat with
    | ok cat2 =>
      simp only [refreshGo, hr]
      refine ⟨?_, ih'.2⟩
      rw [ih'.1]
      simp only [List.length_cons]
    | error e' =>
      have hcaught : caught e' = true := by
        rw [runEscapes, hr] at h'
        simpa using h'
      simp only [refreshGo, hr, hcaught, if_true]
      refine ⟨?_, ih'.2⟩
      rw [ih'.1]
      simp only [List.length_cons]

/-- Witness for the amended claim C1: one healthy source, then the
failing Shell source, then another healthy source — two sources are
attempted and the JSON decode error escapes. -/
theorem claimC1_amended_witness :
    (refreshGo [mkOkCompany none (.ok []) 4, mkShellCompany none (.ok none) 4,
      mkUnoxCompany none (.ok []) 4]).attempted = 2 ∧
    (refreshGo [mkOkCompany none (.ok []) 4, mkShellCompany none (.ok none) 4,
      mkUnoxCompany none (.ok []) 4]).uncaught = some .jsonDecodeError := by
  have h := claimC1_amended [mkOkCompany none (.ok []) 4]
    (mkShellCompany none (.ok none) 4) [mkUnoxCompany none (.ok []) 4]
    .jsonDecodeError
    (by
      intro c' hc'
      rw [List.mem_singleton.mp hc']
      rfl)
    rfl rfl
  exact ⟨h.1, h.2⟩

theorem refreshGo_all_ok (cs : List CompanyM)
    (h : ∀ c' ∈ cs, runSucceeds c' = true) :
    (refreshGo cs).companies.map (fun x => x.cat) = cs.map runResultCat ∧
    (refreshGo cs).warnings = [] ∧
    (refreshGo cs).attempted = cs.length ∧
    (refreshGo cs).uncaught = none := by
  induction cs with
  | nil => exact ⟨rfl, rfl, rfl, rfl⟩
  | cons c' cs ih =>
    have h' := h c' (List.mem_cons_self _ _)
    have ih' := ih (fun x hx => h x (List.mem_cons_of_mem _ hx))
    cases hr : c'.run c'.cat with
    | error e =>
      rw [runSucceeds, hr] at h'
      cases h'
    | ok cat2 =>
      simp only [refreshGo, hr]
      refine ⟨?_, ih'.2.1, ?_, ih'.2.2.2⟩
      · simp only [List.map_cons, ih'.1, runResultCat, hr]
      · simp only [List.length_cons, ih'.2.2.1]

/-- Claim C8: in one `refresh()` pass over several constructed sources,
if exactly one source's fetch raises a connect (or read) timeout — which
in these strategies happens before any catalog mutation — and every other
source's refresh succeeds, then the timing-out source's catalog (hence
every record's price and last-update timestamp) is unchanged for that
cycle, exactly one warning naming that source is logged, no exception
escapes, and every source is attempted, the others ending the pass with
their successfully refreshed catalogs. -/
theorem claimC8_timeout_isolated (pre : List CompanyM) (c : CompanyM)
    (post : List CompanyM) (e : PyExn)
    (hpre : ∀ c' ∈ pre, runSucceeds c' = true)
    (hpost : ∀ c' ∈ post, runSucceeds c' = true)
    (hc : c.run c.cat = .error e)
    (he : e = .readTimeout ∨ e = .connectTimeout) :
    (refreshGo (pre ++ c :: post)).companies.map (fun x => x.cat) =
      pre.map runResultCat ++ c.cat :: post.map runResultCat ∧
    (refreshGo (pre ++ c :: post)).warnings = [c.cname] ∧
    (refreshGo (pre ++ c :: post)).attempted = pre.length + 1 + post.length ∧
    (refreshGo (pre ++ c :: post)).uncaught = none := by
  have hcaught : caught e = true := by
    rcases he with rfl | rfl <;> rfl
  induction pre with
  | nil =>
    have hall := refreshGo_all_ok post hpost
    simp only [List.nil_append, refreshGo, hc, hcaught, if_true]
    refine ⟨?_, ?_, ?_, hall.2.2.2⟩
    · simp only [List.map_cons, hall.1, List.map_nil, List.nil_append]
    · rw [hall.2.1]
    · simp only [hall.2.2.1, List.length_nil]
      omega
  | cons c' pre ih =>
    have h' := hpre c' (List.mem_cons_self _ _)
    have ih' := ih (fun x hx => hpre x (List.mem_cons_of_mem _ hx))
    cases hr : c'.run c'.cat with
    | error e' =>
      rw [runSucceeds, hr] at h'
      cases h'
    | ok cat2 =>
      rw [List.cons_append]
      simp only [refreshGo, hr]
      refine ⟨?_, ih'.2.1, ?_, ih'.2.2.2⟩
      · simp only [List.map_cons, ih'.1, runResultCat, hr, List.cons_append]
      · simp only [List.length_cons, ih'.2.2.1]
        omega

/-- Witness for claim C8: three sources with the middle one (OK) hitting a
connect timeout at fetch: its catalog stays its construction-time catalog
(prices and timestamps untouched), exactly one warning names "OK", all
three sources are attempted, and nothing escapes `refresh()`. -/
theorem claimC8_timeout_isolated_witness :
    (refreshGo [mkTableCompany "Circle K".toList circlekProducts none (.ok []) 1 2 4,
      mkOkCompany none (.error .connectTimeout) 4,
      mkUnoxCompany none (.ok []) 4]).companies.map (fun x => x.cat) =
      [mkTableCompany "Circle K".toList circlekProducts none (.ok []) 1 2 4].map
          runResultCat ++
        (mkOkCompany none (.error .connectTimeout) 4).cat ::
        [mkUnoxCompany none (.ok []) 4].map runResultCat ∧
    (refreshGo [mkTableCompany "Circle K".toList circlekProducts none (.ok []) 1 2 4,
      mkOkCompany none (.error .connectTimeout) 4,
      mkUnoxCompany none (.ok []) 4]).warnings = ["OK".toList] ∧
    (refreshGo [mkTableCompany "Circle K".toList circlekProducts none (.ok []) 1 2 4,
      mkOkCompany none (.error .connectTimeout) 4,
      mkUnoxCompany none (.ok []) 4]).attempted = 3 ∧
    (refreshGo [mkTableCompany "Circle K".toList circlekProducts none (.ok []) 1 2 4,
      mkOkCompany none (.error .connectTimeout) 4,
      mkUnoxCompany none (.ok []) 4]).uncaught = none ∧
    (mkOkCompany none (.error .connectTimeout) 4).cat = okProducts := by
  have h := claimC8_timeout_isolated
    [mkTableCompany "Circle K".toList circlekProducts none (.ok []) 1 2 4]
    (mkOkCompany none (.error .connectTimeout) 4)
    [mkUnoxCompany none (.ok []) 4] .connectTimeout
    (by
      intro c' hc'
      rw [List.mem_singleton.mp hc']
      rfl)
    (by
      intro c' hc'
      rw [List.mem_singleton.mp hc']
      rfl)
    rfl (Or.inr rfl)
  exact ⟨h.1, h.2.1, h.2.2.1, h.2.2.2, rfl⟩

/-- Counterexample to claim C9: a successful Uno-X refresh mutates a
third field besides price and last-update timestamp — the record's
DateUnixEpoc bookkeeping key goes from absent to the accepted record's
epoch. -/
theorem claimC9_counterexample :
    ∃ cat2, unoxGo (mkNameIdx unoxProducts) 9
        [⟨"Diesel".toList, 100, "15,00".toList⟩] unoxProducts = .ok cat2 ∧
      (catLookup kDiesel unoxProducts).map (fun r => r.epochDUE) = some none ∧
      (catLookup kDiesel cat2).map (fun r => r.epochDUE) = some (some 100) := by
  have hstep := unoxGo_cons_accept (mkNameIdx unoxProducts) 9
    ⟨"Diesel".toList, 100, "15,00".toList⟩ [] unoxProducts kDiesel
    { name := "Diesel".toList } (.fin (15 : ℚ))
    (by decide) rfl (fun e hh => Option.noConfusion hh) priceOf_1500
  refine ⟨_, by rw [hstep]; rfl, rfl, ?_⟩
  rw [catLookup_update_self, catLookup_update_self]
  rfl

theorem frameView_update (cat : Catalog) (k : Str) (f : ProdRec → ProdRec)
    (hf : ∀ r, (f r).name = r.name ∧ (f r).productCode = r.productCode ∧
      (f r).ptype = r.ptype ∧ (f r).ocrCrop = r.ocrCrop) :
    frameView (catUpdate cat k f) = frameView cat := by
  unfold frameView catUpdate
  rw [List.map_map]
  apply List.map_congr_left
  intro p hp
  simp only [Function.comp_apply]
  by_cases h : p.1 = k
  · simp only [h, beq_self_eq_true, if_true, (hf p.2).1, (hf p.2).2.1,
      (hf p.2).2.2.1, (hf p.2).2.2.2]
  · have hb : (p.1 == k) = false := by simp [h]
    simp only [hb, Bool.false_eq_true, if_false]

theorem set_price_frame (cat : Catalog) (k raw : Str) (now : Nat) (cat2 : Catalog)
    (h : set_price cat k raw now = .ok cat2) : frameView cat2 = frameView cat := by
  obtain ⟨v, _, rfl⟩ := set_price_ok_inv cat k raw now cat2 h
  exact frameView_update cat k _ (fun r => ⟨rfl, rfl, rfl, rfl⟩)

theorem tableGo_frame (pc qc : Nat) (idx : NameIdx) (now : Nat) :
    ∀ (rows : List (List Str)) (found : List Str) (cat cat2 : Catalog),
    tableGo pc qc idx now rows found cat = .ok cat2 →
    frameView cat2 = frameView cat := by
  intro rows
  induction rows with
  | nil =>
    intro found cat cat2 hok
    simp only [tableGo] at hok
    cases hok
    rfl
  | cons cells rows ih =>
    intro found cat cat2 hok
    by_cases hc : cells = []
    · rw [show tableGo pc qc idx now (cells :: rows) found cat =
        tableGo pc qc idx now rows found cat from by simp [tableGo, hc]] at hok
      exact ih found cat cat2 hok
    · simp only [tableGo, hc, if_false] at hok
      cases hcell : cells[pc]? with
      | none => simp only [hcell] at hok; cases hok
      | some raw =>
        simp only [hcell] at hok
        cases hclean : clean_product_name raw with
        | error e => simp only [hclean] at hok; cases hok
        | ok pname =>
          simp only [hclean] at hok
          by_cases hmem : pname ∈ found
          · rw [if_pos hmem] at hok
            exact ih found cat cat2 hok
          · rw [if_neg hmem] at hok
            cases hidx : idxLookup idx pname with
            | none =>
              simp only [hidx] at hok
              exact ih found cat cat2 hok
            | some key =>
              simp only [hidx] at hok
              cases hq : cells[qc]? with
              | none => simp only [hq] at hok; cases hok
              | some praw =>
                simp only [hq] at hok
                cases hset : set_price cat key praw now with
                | error e => simp only [hset] at hok; cases hok
                | ok catm =>
                  simp only [hset] at hok
                  rw [ih (pname :: found) catm cat2 hok,
                    set_price_frame cat key praw now catm hset]

theorem okGo_frame (idx : NameIdx) (now : Nat) :
    ∀ (rows : List (List Str)) (cat cat2 : Catalog),
    okGo idx now rows cat = .ok cat2 → frameView cat2 = frameView cat := by
  intro rows
  induction rows with
  | nil =>
    intro cat cat2 hok
    simp only [okGo] at hok
    cases hok
    rfl
  | cons cells rows ih =>
    intro cat cat2 hok
    by_cases hc : cells = []
    · rw [show okGo idx now (cells :: rows) cat = okGo idx now rows cat from by
        simp [okGo, hc]] at hok
      exact ih cat cat2 hok
    · simp only [okGo, hc, if_false] at hok
      cases hcell : cells[0]? with
      | none => simp only [hcell] at hok; cases hok
      | some raw =>
        simp only [hcell] at hok
        cases hclean : clean_product_name raw with
        | error e => simp only [hclean] at hok; cases hok
        | ok pname =>
          simp only [hclean] at hok
          cases hidx : idxLookup idx pname with
          | none =>
            simp only [hidx] at hok
            exact ih cat cat2 hok
          | some key =>
            simp only [hidx] at hok
            cases hq : cells[1]? with
            | none => simp only [hq] at hok; cases hok
            | some praw =>
              simp only [hq] at hok
              cases hset : set_price cat key praw now with
              | error e => simp only [hset] at hok; cases hok
              | ok catm =>
                simp only [hset] at hok
                rw [ih catm cat2 hok, set_price_frame cat key praw now catm hset]

theorem unoxGo_frame (idx : NameIdx) (now : Nat) :
    ∀ (recs : List UnoxRec) (cat cat2 : Catalog),
    unoxGo idx now recs cat = .ok cat2 → frameView cat2 = frameView cat := by
  intro recs
  induction recs with
  | nil =>
    intro cat cat2 hok
    simp only [unoxGo] at hok
    cases hok
    rfl
  | cons r rs ih =>
    intro cat cat2 hok
    simp only [unoxGo] at hok
    cases hidx : idxLookup idx r.product with
    | none =>
      simp only [hidx] at hok
      exact ih cat cat2 hok
    | some key =>
      simp only [hidx] at hok
      cases hk : catLookup key cat with
      | none => simp only [hk] at hok; cases hok
      | some prod =>
        simp only [hk] at hok
        cases haccept : (match prod.epochDUE with
            | none => true
            | some e => decide (e ≤ r.epoch)) with
        | false =>
          simp only [haccept, Bool.false_eq_true, if_false] at hok
          exact ih cat cat2 hok
        | true =>
          simp only [haccept, if_true] at hok
          cases hset : set_price cat key r.pumpPrice now with
          | error e => simp only [hset] at hok; cases hok
          | ok catm =>
            simp only [hset] at hok
            rw [ih _ cat2 hok,
              frameView_update catm key (fun p => { p with epochDUE := some r.epoch })
                (fun p => ⟨rfl, rfl, rfl, rfl⟩),
              set_price_frame cat key r.pumpPrice now catm hset]

theorem shellGo_frame (idx : NameIdx) (now : Nat) :
    ∀ (ps : List (Str × Str)) (cat cat2 : Catalog),
    shellGo idx now ps cat = .ok cat2 → frameView cat2 = frameView cat := by
  intro ps
  induction ps with
  | nil =>
    intro cat cat2 hok
    simp only [shellGo] at hok
    cases hok
    rfl
  | cons p ps ih =>
    intro cat cat2 hok
    simp only [shellGo] at hok
    cases hidx : idxLookup idx p.1 with
    | none =>
      simp only [hidx] at hok
      exact ih cat cat2 hok
    | some key =>
      simp only [hidx] at hok
      cases hset : set_price cat key p.2 now with
      | error e => simp only [hset] at hok; cases hok
      | ok catm =>
        simp only [hset] at hok
        rw [ih catm cat2 hok, set_price_frame cat key p.2 now catm hset]

theorem f24Assign_frame_aux (cat : Catalog) :
    ∀ (acc : Catalog) (i : Nat),
    frameView ((cat.foldl (fun (acc : Catalog × Nat) p =>
      if p.2.productCode.isSome then
        (acc.1 ++ [(p.1, { p.2 with payloadIndex := some acc.2 })], acc.2 + 1)
      else (acc.1 ++ [p], acc.2)) (acc, i)).1) =
    frameView acc ++ frameView cat := by
  induction cat with
  | nil =>
    intro acc i
    simp [frameView]
  | cons p t ih =>
    intro acc i
    simp only [List.foldl_cons]
    by_cases h : p.2.productCode.isSome
    · simp only [h, if_true]
      rw [ih]
      simp [frameView]
    · simp only [h, Bool.false_eq_true, if_false]
      rw [ih]
      simp [frameView]

theorem f24AssignIndex_frame (cat : Catalog) :
    frameView (f24AssignIndex cat) = frameView cat := by
  rw [f24AssignIndex, f24Assign_frame_aux cat [] 0]
  simp [frameView]

theorem f24FillGo_frame (resp : List Str) (now : Nat) :
    ∀ (ps : List (Str × ProdRec)) (cat cat2 : Catalog),
    f24FillGo resp now ps cat = .ok cat2 → frameView cat2 = frameView cat := by
  intro ps
  induction ps with
  | nil =>
    intro cat cat2 hok
    simp only [f24FillGo] at hok
    cases hok
    rfl
  | cons p ps ih =>
    intro cat cat2 hok
    simp only [f24FillGo] at hok
    cases hcode : p.2.productCode with
    | none =>
      simp only [hcode] at hok
      exact ih cat cat2 hok
    | some code =>
      simp only [hcode] at hok
      cases hi : p.2.payloadIndex with
      | none => simp only [hi] at hok; cases hok
      | some i =>
        simp only [hi] at hok
        cases hr : resp[i]? with
        | none => simp only [hr] at hok; cases hok
        | some praw =>
          simp only [hr] at hok
          cases hset : set_price cat p.1 praw now with
          | error e => simp only [hset] at hok; cases hok
          | ok catm =>
            simp only [hset] at hok
            rw [ih catm cat2 hok, set_price_frame cat p.1 praw now catm hset]

/-- Claim C9 amended: on every successful `refresh_prices` of the
modelled strategies, no product kind is added or removed (the key list is
preserved in order) and the construction-time fields — display name,
product code, price-type tag, OCR crop — are never mutated; but price and
last-update timestamp are not the ONLY mutable fields: Uno-X also stores
the accepted record's DateUnixEpoc and F24/Q8 assign a payload Index, and
exactly this frame (`frameView`) is what each strategy preserves. -/
theorem claimC9_amended :
    (∀ (pc qc : Nat) (idx : NameIdx) (now : Nat) rows found cat cat2,
      tableGo pc qc idx now rows found cat = .ok cat2 →
      frameView cat2 = frameView cat) ∧
    (∀ (idx : NameIdx) (now : Nat) rows cat cat2,
      okGo idx now rows cat = .ok cat2 → frameView cat2 = frameView cat) ∧
    (∀ (idx : NameIdx) (now : Nat) recs cat cat2,
      unoxGo idx now recs cat = .ok cat2 → frameView cat2 = frameView cat) ∧
    (∀ fetch (idx : NameIdx) (now : Nat) cat cat2,
      shell_refresh fetch idx now cat = .ok cat2 →
      frameView cat2 = frameView cat) ∧
    (∀ resp (now : Nat) cat cat2,
      f24_refresh_fuel resp now cat = .ok cat2 →
      frameView cat2 = frameView cat) := by
  refine ⟨fun pc qc idx now rows found cat cat2 h =>
      tableGo_frame pc qc idx now rows found cat cat2 h,
    fun idx now rows cat cat2 h => okGo_frame idx now rows cat cat2 h,
    fun idx now recs cat cat2 h => unoxGo_frame idx now recs cat cat2 h,
    ?_, ?_⟩
  · intro fetch idx now cat cat2 h
    unfold shell_refresh at h
    cases fetch with
    | error e => cases h
    | ok body =>
      cases body with
      | none => cases h
      | some ps => exact shellGo_frame idx now ps cat cat2 h
  · intro resp now cat cat2 h
    unfold f24_refresh_fuel at h
    cases resp with
    | error e => cases h
    | ok prods =>
      rw [f24FillGo_frame prods now (f24AssignIndex cat) (f24AssignIndex cat) cat2 h,
        f24AssignIndex_frame]

/-- Witness for the amended claim C9: the Uno-X refresh that stores a new
epoch still preserves the catalog frame (keys, names, codes, tags). -/
theorem claimC9_amended_witness :
    ∃ cat2, unoxGo (mkNameIdx unoxProducts) 11
        [⟨"Blyfri 95 E10".toList, 100, "12,34".toList⟩] unoxProducts = .ok cat2 ∧
      frameView cat2 = frameView unoxProducts := by
  have hstep := unoxGo_cons_accept (mkNameIdx unoxProducts) 11
    ⟨"Blyfri 95 E10".toList, 100, "12,34".toList⟩ [] unoxProducts kOctane95
    { name := "Blyfri 95 E10".toList } (.fin (617 / 50 : ℚ))
    (by decide) rfl (fun e hh => Option.noConfusion hh) priceOf_1234
  have hok : unoxGo (mkNameIdx unoxProducts) 11
      [⟨"Blyfri 95 E10".toList, 100, "12,34".toList⟩] unoxProducts =
      .ok (catUpdate (catUpdate unoxProducts kOctane95
        (fun p => { p with price := some (.fin (617 / 50 : ℚ)), lastUpdate := some 11 }))
        kOctane95 (fun p => { p with epochDUE := some 100 })) := by
    rw [hstep]
    rfl
  exact ⟨_, hok, claimC9_amended.2.2.1 (mkNameIdx unoxProducts) 11 _ _ _ hok⟩

end FuelDK
